import Mathlib

set_option maxRecDepth 8000
set_option maxHeartbeats 1000000

/-!
Shallow embedding of the relationship-resolution core of the
`claude-code-archiver` repository (modules `discovery.py`,
`continuation_detector.py`, `sdk_detector.py`, `cache.py`, `models.py`,
`subagent_detector.py`), together with theorems settling the frozen claims
about it.

Conventions of the embedding:
  * a JSONL file is a `List (Option Rec)`: one entry per physical line,
    `none` for a line on which `json.loads` fails (malformed line);
  * Python floats are modelled by `ℚ` (all constants in the scored code are
    small decimals; the 80 percent snapshot threshold is modelled exactly);
  * Python `set` is modelled by `Finset`, `dict` by an insertion-ordered
    association list;
  * Python truthiness of an optional string (`if s:`) is `optTruthy`;
  * external library behaviour that the code calls into and that the claims
    do not constrain (`json.loads` validity of a reply string,
    `datetime.fromisoformat` subtraction) is passed in as an explicit
    parameter, so every theorem quantifies over it.
-/

/-- Lower-case a string character by character (models `str.lower()` on the
ASCII phrases the code matches). -/
def strLower (s : String) : String := ⟨s.toList.map Char.toLower⟩

/-- Check that `pat` occurs at the head of `l`. -/
def listStarts : List Char → List Char → Bool
  | [], _ => true
  | _ :: _, [] => false
  | p :: ps, h :: hs => p == h && listStarts ps hs

/-- Check that `pat` occurs somewhere in `l` (models Python `pat in s`). -/
def listHas (pat : List Char) : List Char → Bool
  | [] => listStarts pat []
  | h :: hs => listStarts pat (h :: hs) || listHas pat hs

/-- Substring test: models the Python `in` operator on strings. -/
def strHas (hay pat : String) : Bool := listHas pat.toList hay.toList

/-- Python truthiness of an optional string: `None` and `""` are falsy. -/
def optTruthy : Option String → Bool
  | none => false
  | some s => !(s == "")

/-- Lexicographic code-point comparison of character lists. -/
def charLe : List Char → List Char → Bool
  | [], _ => true
  | _ :: _, [] => false
  | a :: as, b :: bs => if a = b then charLe as bs else decide (a < b)

/-- Python string comparison `s <= t` (lexicographic by code point). -/
def pyStrLe (s t : String) : Bool := charLe s.toList t.toList

/-- Python `s.startswith(pat)`. -/
def strStarts (s pat : String) : Bool := listStarts pat.toList s.toList

/-- Python `s.endswith(pat)`. -/
def strEnds (s pat : String) : Bool := listStarts pat.toList.reverse s.toList.reverse

/-- Python slicing `s[n:]` (drop the first `n` characters). -/
def strDropLeft (s : String) (n : Nat) : String := ⟨s.toList.drop n⟩

/-- Python slicing `s[:-n]` (drop the last `n` characters). -/
def strDropRight (s : String) (n : Nat) : String :=
  ⟨s.toList.take (s.toList.length - n)⟩

/-- Python `s.strip()` (remove leading and trailing whitespace). -/
def strStrip (s : String) : String :=
  ⟨((s.toList.dropWhile Char.isWhitespace).reverse.dropWhile
      Char.isWhitespace).reverse⟩

/-- One typed block of a `message.content` list (`{"type": ..., "text": ...}`).
Fields the detectors never read are omitted. -/
structure Block where
  btype : String := ""
  text : String := ""
deriving DecidableEq

/-- The `message.content` field: either a plain string or a list of typed
blocks. -/
inductive MsgContent where
  | str (s : String)
  | blocks (bs : List Block)
deriving DecidableEq

/-- One entry of an assistant `tool_calls` list, with the `function.arguments`
JSON already parsed: `argsParseFail` marks a `json.loads` failure (the code
then falls back to `{}`), and the two argument fields are `none` when absent
from the parsed dictionary. -/
structure ToolCall where
  id : String := ""
  funcName : String := ""
  argsParseFail : Bool := false
  subagentType : Option String := none
  description : Option String := none
deriving DecidableEq

/-- One successfully parsed JSONL record, with exactly the fields the
analysed modules read (`data.get(...)`); `none` models an absent key. -/
structure Rec where
  type_ : String := ""
  role : Option String := none
  uuid : Option String := none
  parentUuid : Option String := none
  timestamp : Option String := none
  sessionId : Option String := none
  leafUuid : Option String := none
  isCompactSummary : Bool := false
  isSidechain : Bool := false
  name : Option String := none
  content : Option String := none
  msgContent : MsgContent := .str ""
  toolCalls : List ToolCall := []
deriving DecidableEq

/-- The per-file analysis record of `discovery.ConversationFile`, extended
with `lines`, the parsed contents of the backing file (the Python object
stores only `path` and the analysis passes re-open the file; the embedding
carries the file contents alongside). Dictionary-valued metadata fields are
omitted: no claim reads them. -/
structure ConversationFile where
  path : String := ""
  session_id : String := ""
  size : Nat := 0
  message_count : Nat := 0
  first_timestamp : Option String := none
  last_timestamp : Option String := none
  starts_with_summary : Bool := false
  leaf_uuid : Option String := none
  is_snapshot : Bool := false
  snapshot_group : Option String := none
  snapshot_type : Option String := none
  message_uuids : Finset String := ∅
  parent_session_id : Option String := none
  has_sidechains : Bool := false
  sidechain_count : Nat := 0
  is_completion_marker : Bool := false
  is_sdk_generated : Bool := false
  sdk_pattern_score : ℚ := 0
  continuation_confidence : ℚ := 0
  continuation_type : Option String := none
  is_subagent_sidechain : Bool := false
  parent_session_ids : List String := []
  child_session_ids : List String := []
  subagent_invocations : List String := []
  spawned_by_invocation : Option String := none
  has_error : Bool := false
  lines : List (Option Rec) := []
deriving DecidableEq

/-- Lookup in an insertion-ordered association list (a Python `dict`). -/
def alookup {α : Type} : List (String × α) → String → Option α
  | [], _ => none
  | (k, v) :: rest, q => if k = q then some v else alookup rest q

/-- Overwrite-or-append update of an association list (`d[k] = v`). -/
def aset {α : Type} : List (String × α) → String → α → List (String × α)
  | [], k, v => [(k, v)]
  | (k', v') :: rest, k, v =>
      if k' = k then (k', v) :: rest else (k', v') :: aset rest k v

/-- Append `v` to the list stored under `k`, creating the entry if absent
(models `if k not in chains: chains[k] = []` followed by
`chains[k].append(v)`). -/
def dictAppend : List (String × List String) → String → String →
    List (String × List String)
  | [], k, v => [(k, [v])]
  | (k', vs) :: rest, k, v =>
      if k' = k then (k', vs ++ [v]) :: rest
      else (k', vs) :: dictAppend rest k v

/-- Stable insertion of `c` into a list already sorted by `le`: `c` goes in
front of the first element it is `le`-below-or-equal to. -/
def stableInsert {α : Type} (le : α → α → Bool) (c : α) : List α → List α
  | [] => [c]
  | d :: rest => if le c d then c :: d :: rest else d :: stableInsert le c rest

/-- Stable insertion sort; for a total preorder `le` its output coincides
with the output of stable Python `sorted`/`list.sort`. -/
def stableSort {α : Type} (le : α → α → Bool) : List α → List α
  | [] => []
  | c :: rest => stableInsert le c (stableSort le rest)

namespace Discovery

/-- Value of `data.get("uuid")` under the walrus pattern
`if uuid := data.get("uuid"): return uuid` of `_get_last_uuid_optimized`:
only a present, non-empty uuid counts. -/
def lineUuid : Option Rec → Option String
  | none => none
  | some d =>
      match d.uuid with
      | none => none
      | some u => if u = "" then none else some u

/-- Embedding of `ProjectDiscovery._get_last_uuid_optimized`: scan the last
20 lines in reverse for a uuid, then fall back to the earlier lines, also in
reverse. -/
def getLastUuidOptimized (lines : List (Option Rec)) : Option String :=
  let cut := lines.length - 20
  match (lines.drop cut).reverse.findSome? lineUuid with
  | some u => some u
  | none => (lines.take cut).reverse.findSome? lineUuid

/-- Sort key of `sorted(conversations, key=lambda c: c.first_timestamp or "")`. -/
def tsKey (c : ConversationFile) : String := c.first_timestamp.getD ""

/-- Timestamp comparison used when sorting conversations. -/
def tsLe (a b : ConversationFile) : Bool := pyStrLe (tsKey a) (tsKey b)

/-- The timestamp-sorted conversation list (Python stable `sorted`). -/
def sortedByTs (convs : List ConversationFile) : List ConversationFile :=
  stableSort tsLe convs

/-- First pass of `find_continuation_chains`: map the last uuid of each
conversation (in timestamp order) to its session id, keeping the first
(earliest) mapping on conflicts. -/
def buildUuidMap : List ConversationFile → List (String × String) →
    List (String × String)
  | [], m => m
  | c :: rest, m =>
      let last_uuid := getLastUuidOptimized c.lines
      if optTruthy last_uuid && (alookup m (last_uuid.getD "")).isNone then
        buildUuidMap rest (m ++ [(last_uuid.getD "", c.session_id)])
      else buildUuidMap rest m

/-- Loop of `find_continuation_chains` over `parent_session_id` fields
(post-compaction continuations). -/
def chainsPhase1 : List ConversationFile → List (String × List String) →
    List (String × List String)
  | [], m => m
  | c :: rest, m =>
      if optTruthy c.parent_session_id then
        chainsPhase1 rest (dictAppend m (c.parent_session_id.getD "") c.session_id)
      else chainsPhase1 rest m

/-- Loop of `find_continuation_chains` over summary-leaf resolutions. -/
def chainsPhase2 (umap : List (String × String)) :
    List ConversationFile → List (String × List String) →
    List (String × List String)
  | [], m => m
  | c :: rest, m =>
      if c.starts_with_summary && optTruthy c.leaf_uuid && !c.is_completion_marker then
        let parent_id := alookup umap (c.leaf_uuid.getD "")
        if optTruthy parent_id && !(parent_id == some c.session_id) then
          chainsPhase2 umap rest (dictAppend m (parent_id.getD "") c.session_id)
        else chainsPhase2 umap rest m
      else chainsPhase2 umap rest m

/-- Embedding of `ProjectDiscovery.find_continuation_chains`. -/
def find_continuation_chains (convs : List ConversationFile) :
    List (String × List String) :=
  chainsPhase2 (buildUuidMap (sortedByTs convs) []) convs (chainsPhase1 convs [])

/-- Children recorded for a given parent session in the chain dictionary. -/
def chainChildren (m : List (String × List String)) (k : String) : List String :=
  (alookup m k).getD []

end Discovery

namespace ContinuationDetector

/-- Result record of `detect_continuation_pattern` (dataclass `SummaryPattern`). -/
structure SummaryPattern where
  summary_count : Nat := 0
  is_single_continuation_summary : Bool := false
  has_session_transitions : Bool := false
  confidence_score : ℚ := 0
  summary_type : Option String := none
  session_ids_found : List String := []
deriving DecidableEq

/-- Insert a session id collected via `if session_id := data.get("sessionId"):
session_ids.add(session_id)` — the list stays duplicate-free, so it models the
Python set together with its insertion order. -/
def insertSid (sids : List String) : Option String → List String
  | none => sids
  | some s => if s = "" || sids.contains s then sids else sids ++ [s]

/-- Loop body of `_analyze_summary_context` over the first 30 lines, with the
`enumerate` index `i` (malformed lines advance the index but are skipped). -/
def sumCtxAux : List (Option Rec) → Nat → Nat → List String → Nat × List String
  | [], _, cnt, sids => (cnt, sids)
  | none :: rest, i, cnt, sids => sumCtxAux rest (i + 1) cnt sids
  | some d :: rest, i, cnt, sids =>
      let cnt := cnt + (if d.type_ = "summary" then 1 else 0)
      let sids := insertSid sids d.sessionId
      let cnt := cnt + (if i = 0 ∧ d.isCompactSummary then 1 else 0)
      sumCtxAux rest (i + 1) cnt sids

/-- Embedding of `_analyze_summary_context`: returns
`(is_single_continuation_summary, summary_count, has_session_transitions)`. -/
def analyze_summary_context (lines : List (Option Rec)) : Bool × Nat × Bool :=
  let r := sumCtxAux (lines.take 30) 0 0 []
  let isSingle :=
    if r.1 = 1 then
      match lines with
      | some d :: _ => d.type_ == "summary" || d.isCompactSummary
      | _ => false
    else false
  (isSingle, r.1, r.2.length > 1)

/-- Session-id collection loop of `_detect_session_transitions` (first 30
lines). -/
def transAux : List (Option Rec) → List String → List String
  | [], sids => sids
  | none :: rest, sids => transAux rest sids
  | some d :: rest, sids => transAux rest (insertSid sids d.sessionId)

/-- Embedding of `_detect_session_transitions`. -/
def detect_session_transitions (lines : List (Option Rec)) : Bool × List String :=
  let sids := transAux (lines.take 30) []
  (sids.length > 1, sids)

/-- The fixed phrase list of `_detect_explicit_continuation_content`. -/
def continuation_phrases : List String :=
  [ "this session is being continued from a previous conversation"
  , "ran out of context"
  , "session continues"
  , "continued from previous"
  , "continuing from where we left off"
  , "picking up from our last conversation"
  , "resuming our previous discussion"
  , "context limit reached"
  , "hit the context limit" ]

/-- Flatten a `message.content` value to text: a string is kept, a block list
contributes its `text`-typed blocks joined by single spaces. -/
def flattenContent : MsgContent → String
  | .str s => s
  | .blocks bs => String.intercalate " " ((bs.filter (fun b => b.btype == "text")).map Block.text)

/-- Does the record carry a truthy `name` (title) containing one of the
phrases? -/
def titleHit (d : Rec) : Bool :=
  optTruthy d.name &&
    continuation_phrases.any (fun p => strHas (strLower (d.name.getD "")) p)

/-- Scan loop of `_detect_explicit_continuation_content` with the
`messages_checked` counter `k`; the budget check runs on every parsed line,
the title check on every record kind, the phrase check only on user and
assistant records. -/
def detectExplicitAux : List (Option Rec) → Nat → Bool × ℚ
  | [], _ => (false, 0)
  | none :: rest, k => detectExplicitAux rest k
  | some d :: rest, k =>
      if k ≥ 3 then (false, 0)
      else if titleHit d then (true, 19/20)
      else if d.type_ == "user" || d.type_ == "assistant" then
        let text := strLower (flattenContent d.msgContent)
        if continuation_phrases.any (fun p => strHas text p) then
          if strHas text "this session is being continued" then (true, 19/20)
          else if d.type_ == "user" then (true, 9/10)
          else (true, 17/20)
        else detectExplicitAux rest (k + 1)
      else detectExplicitAux rest k

/-- Embedding of `_detect_explicit_continuation_content`. -/
def detect_explicit_continuation_content (lines : List (Option Rec)) : Bool × ℚ :=
  detectExplicitAux lines 0

/-- Clamp to the unit interval (`max(0.0, min(1.0, score))`). -/
def clamp01 (x : ℚ) : ℚ := max 0 (min 1 x)

/-- The sequential additive score of continuation
`_calculate_confidence_score`, before the final clamp. -/
def rawStructuralScore (is_single_summary : Bool) (summary_count : Nat)
    (has_session_transitions : Bool) (starts_with_summary : Bool)
    (parent_session_id : Option String) : ℚ :=
  let score : ℚ := 0
  let score := if is_single_summary then score + 2/5 else score
  let score := if has_session_transitions then score + 3/10 else score
  let score := if optTruthy parent_session_id then score + 1/5 else score
  let score := if starts_with_summary && summary_count == 1 then score + 1/10 else score
  let score := if summary_count > 2 then score - 3/10 else score
  let score := if summary_count == 0 then score - 1/5 else score
  score

/-- Embedding of continuation `_calculate_confidence_score`: the SDK early
return, the sequential additive scoring, and the clamp
`max(0.0, min(1.0, score))`. -/
def calculate_confidence_score (is_single_summary : Bool) (summary_count : Nat)
    (has_session_transitions : Bool) (starts_with_summary : Bool)
    (parent_session_id : Option String) (is_sdk_generated : Bool) : ℚ :=
  if is_sdk_generated then 0
  else
    max 0 (min 1 (rawStructuralScore is_single_summary summary_count
      has_session_transitions starts_with_summary parent_session_id))

/-- Structural confidence of a conversation file, exactly as
`detect_continuation_pattern` assembles the scorer inputs. -/
def structuralScoreOf (conv : ConversationFile) : ℚ :=
  let ctx := analyze_summary_context conv.lines
  calculate_confidence_score ctx.1 ctx.2.1 (detect_session_transitions conv.lines).1
    conv.starts_with_summary conv.parent_session_id conv.is_sdk_generated

/-- Explicit-content confidence of a conversation file. -/
def contentScoreOf (conv : ConversationFile) : ℚ :=
  (detect_explicit_continuation_content conv.lines).2

/-- Embedding of `detect_continuation_pattern`. -/
def detect_continuation_pattern (conv : ConversationFile) : SummaryPattern :=
  let ctx := analyze_summary_context conv.lines
  let trans := detect_session_transitions conv.lines
  let confidence := max (structuralScoreOf conv) (contentScoreOf conv)
  let summary_type :=
    if ctx.2.1 = 0 then "none"
    else if ctx.2.1 = 1 ∧ ctx.1 = true then "single_summary"
    else "multi_summary"
  { summary_count := ctx.2.1
  , is_single_continuation_summary := ctx.1
  , has_session_transitions := trans.1
  , confidence_score := confidence
  , summary_type := some summary_type
  , session_ids_found := trans.2 }

/-- Embedding of `determine_continuation_type`; the `>= 0.8` block can fall
through when the file has neither a transition nor a single summary. -/
def determine_continuation_type (p : SummaryPattern) : Option String :=
  if p.confidence_score < 1/2 then none
  else if p.confidence_score ≥ 17/20 then
    if p.has_session_transitions then some "post_compaction"
    else some "true_continuation"
  else if p.confidence_score ≥ 4/5 && p.has_session_transitions then
    some "post_compaction"
  else if p.confidence_score ≥ 4/5 && p.is_single_continuation_summary then
    some "true_continuation"
  else if p.summary_count > 2 then some "context_history"
  else some "possible_continuation"

/-- Duplicate of `_get_last_uuid_optimized` as it appears in
`continuation_detector.py` (the module keeps its own copy of the helper). -/
def getLastUuidOptimizedCD (lines : List (Option Rec)) : Option String :=
  let cut := lines.length - 20
  match (lines.drop cut).reverse.findSome? Discovery.lineUuid with
  | some u => some u
  | none => (lines.take cut).reverse.findSome? Discovery.lineUuid

/-- First pass of the module-level `find_continuation_chains` of
`continuation_detector.py`. -/
def buildUuidMapCD : List ConversationFile → List (String × String) →
    List (String × String)
  | [], m => m
  | c :: rest, m =>
      let last_uuid := getLastUuidOptimizedCD c.lines
      if optTruthy last_uuid && (alookup m (last_uuid.getD "")).isNone then
        buildUuidMapCD rest (m ++ [(last_uuid.getD "", c.session_id)])
      else buildUuidMapCD rest m

/-- Embedding of the module-level `find_continuation_chains` of
`continuation_detector.py` (a textual duplicate of the discovery method). -/
def find_continuation_chains (convs : List ConversationFile) :
    List (String × List String) :=
  Discovery.chainsPhase2 (buildUuidMapCD (Discovery.sortedByTs convs) []) convs
    (Discovery.chainsPhase1 convs [])

end ContinuationDetector

namespace SdkDetector

/-- Result record of `detect_sdk_pattern` (dataclass `SDKPattern`). -/
structure SDKPattern where
  has_completion_marker : Bool := false
  has_analyze_instruction : Bool := false
  has_json_requirement : Bool := false
  has_structured_response : Bool := false
  message_count : Nat := 0
  confidence_score : ℚ := 0
  has_article_processing : Bool := false
  has_knowledge_extraction : Bool := false
  has_pure_json_response : Bool := false
  has_short_conversation : Bool := false
deriving DecidableEq

/-- Embedding of `_is_pure_json_response`; `jsonOk` stands for success of
`json.loads` on the stripped text (external library behaviour). -/
def isPureJsonResponse (jsonOk : String → Bool) (t : String) : Bool :=
  let t := if strStarts t "```json" then strDropLeft t 7 else t
  let t := if strEnds t "```" then strDropRight t 3 else t
  let t := strStrip t
  if !(strStarts t "\x7b" && strEnds t "\x7d") then false
  else jsonOk t

/-- Accumulated score of the SDK `_calculate_confidence_score` before the
final `min(score, 1.0)` cap.  Note the source writes `if message_count > 4:
score *= 0.7 elif message_count > 6: score *= 0.4`, so the `0.4` branch is
unreachable — the embedding preserves this faithfully. -/
def rawSdkScore (has_completion_marker has_analyze_instruction
    has_json_requirement has_structured_response has_article_processing
    has_knowledge_extraction has_pure_json_response has_short_conversation :
    Bool) (message_count : Nat) : ℚ :=
  let score : ℚ := 0
  let score :=
    if has_analyze_instruction && has_knowledge_extraction then
      let score := score + 1/2
      let score := if has_structured_response then score + 1/5 else score
      if has_pure_json_response then score + 1/5 else score
    else if has_completion_marker && has_analyze_instruction &&
        has_json_requirement && has_structured_response then score + 2/5
    else score
  let score := if has_pure_json_response && score < 3/10 then score + 3/10 else score
  let score :=
    if has_short_conversation && message_count == 3 then score + 1/5
    else if has_short_conversation && message_count == 4 then score + 3/20
    else score
  let score :=
    if score < 3/5 then
      let score := if has_knowledge_extraction then score + 3/20 else score
      let score := if has_article_processing then score + 1/10 else score
      let score := if has_analyze_instruction then score + 1/10 else score
      let score := if has_json_requirement then score + 1/10 else score
      if has_structured_response then score + 1/10 else score
    else score
  if message_count > 4 then score * (7/10)
  else if message_count > 6 then score * (2/5)
  else score

/-- Embedding of the SDK `_calculate_confidence_score`: the sequential
additive score, capped at 1.0 (`return min(score, 1.0)`). -/
def calculate_confidence_score (has_completion_marker has_analyze_instruction
    has_json_requirement has_structured_response has_article_processing
    has_knowledge_extraction has_pure_json_response has_short_conversation :
    Bool) (message_count : Nat) : ℚ :=
  min (rawSdkScore has_completion_marker has_analyze_instruction
    has_json_requirement has_structured_response has_article_processing
    has_knowledge_extraction has_pure_json_response has_short_conversation
    message_count) 1

/-- The two exact SDK instruction phrases. -/
def sdk_exact_phrases : List String :=
  [ "analyze this document and extract structured knowledge"
  , "analyze this article and extract structured knowledge" ]

/-- The article-processing pattern phrases. -/
def article_patterns : List String :=
  [ "extract structured knowledge", "analyze this article" ]

/-- Embedding of `detect_sdk_pattern`. -/
def detect_sdk_pattern (jsonOk : String → Bool) (conv : ConversationFile) :
    SDKPattern :=
  let message_count := conv.message_count
  let has_short_conversation := message_count ≤ 4
  match conv.lines with
  | [] =>
      { has_completion_marker := conv.starts_with_summary
      , message_count := message_count
      , confidence_score := 0
      , has_short_conversation := has_short_conversation }
  | l0 :: restLines =>
      let has_completion_marker :=
        conv.starts_with_summary ||
          (match l0 with
           | some d => d.type_ == "summary" && optTruthy d.leafUuid
           | none => false)
      let user_line := if has_completion_marker then restLines.head? else some l0
      let userFlags :=
        match user_line with
        | some (some d) =>
            if d.type_ == "user" then
              let contentStr := flattenUser d.msgContent
              let content_lower := strLower contentStr
              let has_analyze := sdk_exact_phrases.any (fun p => strHas content_lower p)
              let has_knowledge := has_analyze
              let has_json_req := strHas content_lower "return only valid json"
              let has_title_content := strHas contentStr "title:" && strHas contentStr "content:"
              let has_markdown := strHas contentStr "---"
              let has_article :=
                article_patterns.any (fun p => strHas content_lower p) ||
                  has_title_content || has_markdown
              (has_analyze, has_json_req, has_article, has_knowledge)
            else (false, false, false, false)
        | _ => (false, false, false, false)
      let assistant_line :=
        if has_completion_marker then (restLines.drop 1).head? else restLines.head?
      let asstFlags :=
        match assistant_line with
        | some (some d) =>
            if d.type_ == "assistant" then
              match d.msgContent with
              | .blocks (b :: _) =>
                  let text := strStrip b.text
                  if (strStarts text "```json" && strEnds text "```") ||
                      (strStarts text "\x7b" && strEnds text "\x7d") then
                    (true, isPureJsonResponse jsonOk text)
                  else (false, false)
              | _ => (false, false)
            else (false, false)
        | _ => (false, false)
      { has_completion_marker := has_completion_marker
      , has_analyze_instruction := userFlags.1
      , has_json_requirement := userFlags.2.1
      , has_structured_response := asstFlags.1
      , message_count := message_count
      , confidence_score :=
          calculate_confidence_score has_completion_marker userFlags.1
            userFlags.2.1 asstFlags.1 userFlags.2.2.1 userFlags.2.2.2
            asstFlags.2 has_short_conversation message_count
      , has_article_processing := userFlags.2.2.1
      , has_knowledge_extraction := userFlags.2.2.2
      , has_pure_json_response := asstFlags.2
      , has_short_conversation := has_short_conversation }
where
  /-- Same list-flattening of `message.content` as the continuation
  detector (string kept, text blocks joined by spaces). -/
  flattenUser : MsgContent → String
    | .str s => s
    | .blocks bs =>
        String.intercalate " " ((bs.filter (fun b => b.btype == "text")).map Block.text)

end SdkDetector

namespace Cache

/-- The cache format version tag (`CACHE_VERSION = "2.1.0"`). -/
def CACHE_VERSION : String := "2.1.0"

/-- Live `os.stat` data of a file: modification time and byte size. -/
structure Stat where
  mtime : ℚ := 0
  size : Nat := 0
deriving DecidableEq

/-- Embedding of dataclass `CacheEntry`; `analysis_result` stores the
`ConversationFile` value itself (the Python dict round-trip through
`model_dump`). -/
structure CacheEntry where
  file_path : String := ""
  last_modified : ℚ := 0
  file_size : Nat := 0
  analysis_result : ConversationFile := {}
  analysis_version : String := ""
deriving DecidableEq

/-- The in-memory cache dictionary, keyed by path. -/
def CacheMap : Type := List (String × CacheEntry)

/-- Embedding of `should_reanalyze`; `liveStat` is `none` when `stat`
raises `OSError`. -/
def should_reanalyze (cache : CacheMap) (path : String)
    (liveStat : Option Stat) : Bool :=
  match alookup cache path with
  | none => true
  | some e =>
      if e.analysis_version ≠ CACHE_VERSION then true
      else
        match liveStat with
        | none => true
        | some st =>
            if st.mtime > e.last_modified then true
            else if st.size ≠ e.file_size then true
            else false

/-- Embedding of `get_cached_result` (the reconstruction of the stored
value always succeeds in the embedding, since the entry carries the value). -/
def get_cached_result (cache : CacheMap) (path : String)
    (liveStat : Option Stat) : Option ConversationFile :=
  match alookup cache path with
  | none => none
  | some e =>
      if should_reanalyze cache path liveStat then none
      else some e.analysis_result

/-- Embedding of `cache_result`: on a successful `stat`, store the analysis
under the file path with the current version; a failed `stat` leaves the
cache unchanged. -/
def cache_result (cache : CacheMap) (conv : ConversationFile)
    (liveStat : Option Stat) : CacheMap :=
  match liveStat with
  | none => cache
  | some st =>
      aset cache conv.path
        { file_path := conv.path
        , last_modified := st.mtime
        , file_size := st.size
        , analysis_result := conv
        , analysis_version := CACHE_VERSION }

end Cache

namespace Models

/-- Embedding of `MessageNode` (fields the path extractor reads). -/
structure MessageNode where
  uuid : String := ""
  timestamp : String := ""
  parent_uuid : Option String := none
  edge_type : String := "normal"
  role : String := "user"
  content : String := ""
deriving DecidableEq

/-- Embedding of `ConversationDAG` (the arena map is an association list
keyed by uuid, as the Python dict is). -/
structure ConversationDAG where
  nodes : List (String × MessageNode) := []
  root_uuid : String := ""
  leaf_uuids : List String := []
  created_at : String := ""
  updated_at : String := ""
  message_count : Nat := 0
deriving DecidableEq

/-- Embedding of `ConversationPath`. -/
structure ConversationPath where
  root_uuid : String := ""
  leaf_uuid : String := ""
  messages : List MessageNode := []
  branch_points : List String := []
  path_length : Nat := 0
  created_at : String := ""
  updated_at : String := ""
deriving DecidableEq

/-- Embedding of `get_children`: all nodes whose parent link is the given
uuid. -/
def get_children (g : ConversationDAG) (parent_uuid : String) :
    List MessageNode :=
  (g.nodes.map Prod.snd).filter (fun n => n.parent_uuid == some parent_uuid)

/-- The `while current_uuid:` walk of `extract_path`, leaf first.  The
Python loop has no fuel; the embedding adds explicit fuel and the theorems
show any fuel above the ancestor-chain length yields the same result, which
is what termination of the loop means.  `none` models a `KeyError` or fuel
exhaustion (the loop not terminating within `fuel` steps). -/
def walk (nodes : List (String × MessageNode)) :
    Nat → Option String → Option (List MessageNode)
  | _, none => some []
  | 0, some _ => none
  | fuel + 1, some u =>
      match alookup nodes u with
      | none => none
      | some n =>
          match walk nodes fuel n.parent_uuid with
          | none => none
          | some l => some (n :: l)

/-- Embedding of `extract_path` (with the walk fuel made explicit). -/
def extract_path (g : ConversationDAG) (fuel : Nat) (leaf_uuid : String) :
    Option ConversationPath :=
  match walk g.nodes fuel (some leaf_uuid) with
  | none => none
  | some l =>
      let path := l.reverse
      let branch_points :=
        (path.filter (fun n => (get_children g n.uuid).length > 1)).map MessageNode.uuid
      some
        { root_uuid := g.root_uuid
        , leaf_uuid := leaf_uuid
        , messages := path
        , branch_points := branch_points
        , path_length := path.length
        , created_at := ((path.head?).map MessageNode.timestamp).getD ""
        , updated_at := ((path.getLast?).map MessageNode.timestamp).getD "" }

/-- Embedding of `get_all_paths`: one `extract_path` per leaf uuid. -/
def get_all_paths (g : ConversationDAG) (fuel : Nat) :
    Option (List ConversationPath) :=
  g.leaf_uuids.mapM (extract_path g fuel)

/-- The ancestor chain from `u` down to a parentless node, leaf first:
this is the finite-and-acyclic-ancestry hypothesis of the claim, stated as
the existence of the finite chain the walk must follow. -/
inductive ReachesRoot (nodes : List (String × MessageNode)) :
    String → List MessageNode → Prop
  | root {u n} : alookup nodes u = some n → n.parent_uuid = none →
      ReachesRoot nodes u [n]
  | step {u n p l} : alookup nodes u = some n → n.parent_uuid = some p →
      ReachesRoot nodes p l → ReachesRoot nodes u (n :: l)

end Models

namespace Discovery

/-- Embedding of `_is_compaction_continuation`: the first line parses and
carries `isCompactSummary: true`. -/
def is_compaction_continuation (f : ConversationFile) : Bool :=
  match f.lines with
  | some d :: _ => d.isCompactSummary
  | _ => false

/-- The 80 percent overlap test of `detect_and_filter_snapshots`, including
the enclosing `if overlap:` non-emptiness test (the threshold
`len(overlap) > smaller * 0.8` is modelled exactly as `5*overlap > 4*smaller`). -/
def overlapLinked (a b : ConversationFile) : Bool :=
  let overlap := a.message_uuids ∩ b.message_uuids
  overlap ≠ ∅ &&
    5 * overlap.card > 4 * min a.message_uuids.card b.message_uuids.card

/-- Inner loop of the snapshot pass: collect every not-yet-processed file of
`allNC` whose uuid sample overlaps the seed above threshold, extending the
processed set as it goes.  Returns the collected group members (seed
excluded) and the updated processed set. -/
def cgStep (seed : ConversationFile) (acc : List ConversationFile × List String)
    (other : ConversationFile) : List ConversationFile × List String :=
  if other.path ∈ acc.2 then acc
  else if other.message_uuids = ∅ then acc
  else if overlapLinked seed other then
    (acc.1 ++ [other], acc.2 ++ [other.path])
  else acc

def collectGroup (seed : ConversationFile) (allNC : List ConversationFile)
    (processed : List String) : List ConversationFile × List String :=
  allNC.foldl (cgStep seed) ([], processed)

/-- Sort key of `group.sort(key=lambda x: x.message_count)`. -/
def countLe (a b : ConversationFile) : Bool :=
  decide (a.message_count ≤ b.message_count)

/-- Survivor choice: the largest group member that starts with a summary
(`for g in reversed(group)` over the count-sorted group), else the largest
member (`group[-1]`); `seed` is only a default for the impossible empty
case. -/
def pickSelected (seed : ConversationFile) (sortedG : List ConversationFile) :
    ConversationFile :=
  match sortedG.reverse.find? (fun g => g.starts_with_summary) with
  | some g => g
  | none => (sortedG.getLast?).getD seed

/-- Marking a snapshot: `g.is_snapshot = True; g.snapshot_type =
"intermediate"`. -/
def markSnapshot (g : ConversationFile) : ConversationFile :=
  { g with is_snapshot := true, snapshot_type := some "intermediate" }

/-- Outer loop of `detect_and_filter_snapshots` over the non-continuation
files.  State: processed path set, result list, and the list of files
mutated into snapshots (the Python code mutates shared objects; the
embedding returns the updated copies). -/
def snapshotLoop (allNC : List ConversationFile) :
    List ConversationFile → List String → List ConversationFile →
    List ConversationFile → List ConversationFile × List ConversationFile
  | [], _, result, marked => (result, marked)
  | conv :: rest, processed, result, marked =>
      if conv.path ∈ processed then
        snapshotLoop allNC rest processed result marked
      else if conv.message_uuids = ∅ then
        snapshotLoop allNC rest (processed ++ [conv.path]) (result ++ [conv]) marked
      else
        let pr1 := processed ++ [conv.path]
        let col := collectGroup conv allNC pr1
        if col.1 = [] then
          snapshotLoop allNC rest col.2 (result ++ [conv]) marked
        else
          let sortedG := stableSort countLe (conv :: col.1)
          let selected := pickSelected conv sortedG
          snapshotLoop allNC rest col.2 (result ++ [selected])
            (marked ++ (sortedG.filter (fun g => g ≠ selected)).map markSnapshot)

/-- Core of `detect_and_filter_snapshots`: returns the kept files and the
files marked as intermediate snapshots. -/
def snapshotCore (conversations : List ConversationFile) :
    List ConversationFile × List ConversationFile :=
  let continuations := conversations.filter (fun c => is_compaction_continuation c)
  let non_continuations :=
    conversations.filter (fun c => decide (c ∉ continuations))
  snapshotLoop non_continuations non_continuations [] continuations []

/-- Embedding of `detect_and_filter_snapshots` (the returned filtered list;
the companion `.2` of `snapshotCore` holds the files mutated into
snapshots). -/
def detect_and_filter_snapshots (conversations : List ConversationFile) :
    List ConversationFile :=
  (snapshotCore conversations).1

end Discovery

namespace Subagent

/-- One detected context switch of `analyze_conversation_flow`
(`detection_method` is always the flow-pattern tag). -/
structure ContextSwitch where
  task_index : Nat := 0
  message_count_before : Nat := 0
  message_count_after : Nat := 1
  detection_method : String := "flow_pattern"
deriving DecidableEq

/-- Embedding of dataclass `ConversationFlowContext`. -/
structure FlowContext where
  session_id : String := ""
  message_counts : List Nat := []
  task_invocation_indices : List Nat := []
  context_switches : List ContextSwitch := []
  active_subagent : Option String := none
  is_infrastructure_session : Bool := false
  flow_confidence : ℚ := 0
deriving DecidableEq

/-- Embedding of dataclass `SubagentInvocation` (agent enums are modelled by
their value strings). -/
structure SubagentInvocation where
  message_uuid : String := ""
  timestamp : String := ""
  subagent_type : String := ""
  description : String := ""
  session_id : String := ""
  tool_use_id : String := ""
  message_count_before : Nat := 0
  agent_type : String := "unknown"
deriving DecidableEq

/-- Embedding of dataclass `SidechainRelationship`
(`message_count_pattern` is flattened into its two entries). -/
structure SidechainRelationship where
  parent_session_id : String := ""
  child_session_id : String := ""
  invocation_uuid : String := ""
  subagent_type : String := ""
  created_timestamp : String := ""
  temporal_gap_seconds : ℚ := 0
  detection_method : String := "structural"
  confidence_score : ℚ := 0
  agent_type : String := "unknown"
  is_infrastructure : Bool := false
  parent_count : Nat := 0
  child_count : Nat := 0
deriving DecidableEq

/-- The known subagent type strings of `classify_agent_type`. -/
def knownAgentTypes : List String :=
  [ "concept-extractor", "bug-hunter", "insight-synthesis", "code-analyzer"
  , "pattern-detector", "security-auditor", "performance-optimizer" ]

/-- Embedding of `classify_agent_type` (enum values coincide with the
lower-cased keys). -/
def classify_agent_type (s : String) : String :=
  if knownAgentTypes.contains (strLower s) then strLower s else "unknown"

/-- Reset-pattern lookahead of `analyze_conversation_flow`: among the next
10 lines, does one of the first three parse to a user message? -/
def resetDetected (allLines : List (Option Rec)) (i : Nat) : Bool :=
  (((allLines.drop (i + 1)).take 10).take 3).any
    (fun l =>
      match l with
      | some d => d.type_ == "message" && d.role == some "user"
      | none => false)

/-- Per-line accumulator of `analyze_conversation_flow`. -/
structure FlowAcc where
  message_counts : List Nat := []
  task_indices : List Nat := []
  switches : List ContextSwitch := []
deriving DecidableEq

/-- Main loop of `analyze_conversation_flow`, walking the lines with their
`enumerate` index while keeping the full list for the lookahead. -/
def flowGo (allLines : List (Option Rec)) :
    Nat → List (Option Rec) → FlowAcc → FlowAcc
  | _, [], acc => acc
  | i, none :: rest, acc => flowGo allLines (i + 1) rest acc
  | i, some d :: rest, acc =>
      let acc :=
        if d.type_ == "message" && d.role == some "assistant" then
          d.toolCalls.foldl
            (fun acc tc =>
              if tc.funcName == "Task" then
                let acc :=
                  { acc with
                    task_indices := acc.task_indices ++ [i]
                    , message_counts := acc.message_counts ++ [i + 1] }
                if (i : Int) < (allLines.length : Int) - 10 then
                  if resetDetected allLines i then
                    { acc with
                      switches := acc.switches ++
                        [{ task_index := i, message_count_before := i + 1 }] }
                  else acc
                else acc
              else acc)
            acc
        else acc
      flowGo allLines (i + 1) rest acc

/-- Embedding of `analyze_conversation_flow`. -/
def analyze_conversation_flow (conv : ConversationFile) : FlowContext :=
  let acc := flowGo conv.lines 0 conv.lines {}
  let ctx : FlowContext :=
    { session_id := conv.session_id
    , message_counts := acc.message_counts
    , task_invocation_indices := acc.task_indices
    , context_switches := acc.switches }
  let ctx :=
    if acc.switches.length > 0 then
      { ctx with flow_confidence := 4/5, active_subagent := some "detected" }
    else ctx
  if conv.lines.length ≤ 2 then
    { ctx with is_infrastructure_session := true, flow_confidence := 9/10 }
  else ctx

/-- Embedding of `detect_infrastructure_noise`. -/
def detect_infrastructure_noise (conv : ConversationFile)
    (flow : FlowContext) : Bool :=
  if conv.message_count ≤ 1 then true
  else if conv.message_count ≤ 3 && flow.task_invocation_indices.length == 0 then true
  else flow.is_infrastructure_session

/-- Embedding of `extract_task_invocations` (line numbers count from 1). -/
def extractGo (sid : String) : Nat → List (Option Rec) →
    List SubagentInvocation → List SubagentInvocation
  | _, [], acc => acc
  | ln, none :: rest, acc => extractGo sid (ln + 1) rest acc
  | ln, some d :: rest, acc =>
      let acc :=
        if d.type_ == "message" && d.role == some "assistant" then
          d.toolCalls.foldl
            (fun acc tc =>
              if tc.funcName == "Task" then
                let st := tc.subagentType.getD "unknown"
                acc ++
                  [{ message_uuid := d.uuid.getD ""
                   , timestamp := d.timestamp.getD ""
                   , subagent_type := st
                   , description := tc.description.getD ""
                   , session_id := sid
                   , tool_use_id := tc.id
                   , message_count_before := ln
                   , agent_type := classify_agent_type st }]
              else acc)
            acc
        else acc
      extractGo sid (ln + 1) rest acc

/-- Embedding of `extract_task_invocations`. -/
def extract_task_invocations (conv : ConversationFile) :
    List SubagentInvocation :=
  extractGo conv.session_id 1 conv.lines []

/-- Embedding of `_is_timestamp_after` (plain string comparison of ISO
timestamps). -/
def is_timestamp_after (t1 t2 : String) : Bool := decide (t2 < t1)

/-- Embedding of `_has_compatible_parent_chain` (first five lines only). -/
def has_compatible_parent_chain (parent_uuid : String)
    (conv : ConversationFile) : Bool :=
  (conv.lines.take 5).any
    (fun l =>
      match l with
      | some d =>
          d.parentUuid == some parent_uuid ||
            strHas (d.content.getD "") parent_uuid ||
              d.leafUuid == some parent_uuid
      | none => false)

/-- Embedding of `_find_matching_sidechains`; `gapSeconds` stands for
`_calculate_temporal_gap`, whose `datetime` arithmetic (with its 0.0
fallback on parse failure) is external library behaviour. -/
def find_matching_sidechains (gapSeconds : String → String → ℚ)
    (inv : SubagentInvocation) (all : List ConversationFile) : List String :=
  all.foldl
    (fun acc conv =>
      if conv.session_id == inv.session_id then acc
      else if !(optTruthy conv.first_timestamp) || inv.timestamp == "" then acc
      else if !(is_timestamp_after (conv.first_timestamp.getD "") inv.timestamp) then acc
      else if gapSeconds inv.timestamp (conv.first_timestamp.getD "") > 600 then acc
      else if has_compatible_parent_chain inv.message_uuid conv then
        acc ++ [conv.session_id]
      else acc)
    []

/-- Append a relationship to the entry of its parent key. -/
def relAppend : List (String × List SidechainRelationship) → String →
    SidechainRelationship → List (String × List SidechainRelationship)
  | [], k, v => [(k, [v])]
  | (k', vs) :: rest, k, v =>
      if k' = k then (k', vs ++ [v]) :: rest
      else (k', vs) :: relAppend rest k v

/-- Embedding of `detect_cross_session_relationships`. -/
def detect_cross_session_relationships (gapSeconds : String → String → ℚ)
    (conversations : List ConversationFile) :
    List (String × List SidechainRelationship) :=
  let flow_contexts :=
    conversations.foldl
      (fun m c => aset m c.session_id (analyze_conversation_flow c)) []
  let all_invocations :=
    conversations.foldl
      (fun acc c =>
        match alookup flow_contexts c.session_id with
        | some fc =>
            if detect_infrastructure_noise c fc then acc
            else acc ++ extract_task_invocations c
        | none => acc)
      []
  all_invocations.foldl
    (fun rels inv =>
      let sidechains := find_matching_sidechains gapSeconds inv conversations
      if sidechains = [] then rels
      else
        let rels :=
          if (alookup rels inv.session_id).isNone then rels ++ [(inv.session_id, [])]
          else rels
        sidechains.foldl
          (fun rels child_id =>
            let child_conv := conversations.find? (fun c => c.session_id == child_id)
            let child_ts :=
              match child_conv with
              | some cc => if optTruthy cc.first_timestamp then cc.first_timestamp.getD "" else ""
              | none => ""
            let child_flow := alookup flow_contexts child_id
            let method :=
              match child_flow with
              | some cf => if cf.flow_confidence > 1/2 then "hybrid" else "structural"
              | none => "structural"
            let confidence :=
              match child_flow with
              | some cf => cf.flow_confidence
              | none => 1/2
            let is_infra :=
              match child_conv, child_flow with
              | some cc, some cf => detect_infrastructure_noise cc cf
              | _, _ => false
            relAppend rels inv.session_id
              { parent_session_id := inv.session_id
              , child_session_id := child_id
              , invocation_uuid := inv.message_uuid
              , subagent_type := inv.subagent_type
              , created_timestamp := child_ts
              , temporal_gap_seconds := gapSeconds inv.timestamp child_ts
              , detection_method := method
              , confidence_score := confidence
              , agent_type := inv.agent_type
              , is_infrastructure := is_infra
              , parent_count := inv.message_count_before
              , child_count := (child_conv.map ConversationFile.message_count).getD 0 })
          rels)
    []

/-- Update the first list element satisfying `p` (the Python code mutates
the first matching object found by `next(...)`). -/
def updateFirst {α : Type} (p : α → Bool) (f : α → α) : List α → List α
  | [] => []
  | x :: rest => if p x then f x :: rest else x :: updateFirst p f rest

/-- The relationship-application loop of `discover_project_conversations`
(discovery lines 181-194). -/
def applyRels (conversations : List ConversationFile)
    (rels : List (String × List SidechainRelationship)) :
    List ConversationFile :=
  rels.foldl
    (fun convs pr =>
      let convs :=
        updateFirst (fun c => c.session_id == pr.1)
          (fun c => { c with child_session_ids := pr.2.map SidechainRelationship.child_session_id })
          convs
      pr.2.foldl
        (fun convs rel =>
          updateFirst (fun c => c.session_id == rel.child_session_id)
            (fun c =>
              { c with
                is_subagent_sidechain := true
                , parent_session_ids := [pr.1]
                , spawned_by_invocation := some rel.invocation_uuid })
            convs)
        convs)
    conversations

/-- The cross-session relationship phase of
`discover_project_conversations` (discovery lines 170-194), including the
500-file complexity guard.  Returns the updated conversations and the
relationship dictionary. -/
def crossSessionPhase (gapSeconds : String → String → ℚ)
    (conversations : List ConversationFile) :
    List ConversationFile × List (String × List SidechainRelationship) :=
  let rels :=
    if conversations.length > 500 then []
    else detect_cross_session_relationships gapSeconds conversations
  (applyRels conversations rels, rels)

end Subagent

section ClaimC7

/-- C7: for every file set with more than 500 files the sub-agent
spawn-matching pass is skipped: no spawn edges are produced and no
conversation is updated with parent/child session relationships (and the
phase, being a total function, completes without error). -/
theorem C7_spawn_pass_skipped (gapSeconds : String → String → ℚ)
    (conversations : List ConversationFile)
    (h : conversations.length > 500) :
    Subagent.crossSessionPhase gapSeconds conversations = (conversations, []) := by
  simp only [Subagent.crossSessionPhase, if_pos h, Subagent.applyRels, List.foldl_nil]

/-- Witness for C7: a directory of 600 identical files yields an empty
spawn-edge list and unchanged conversations. -/
theorem C7_spawn_pass_skipped_witness :
    (List.replicate 600 ({} : ConversationFile)).length > 500 ∧
    Subagent.crossSessionPhase (fun _ _ => 0) (List.replicate 600 {}) =
      (List.replicate 600 {}, []) :=
  ⟨by simp, C7_spawn_pass_skipped (fun _ _ => 0) _ (by simp)⟩

end ClaimC7

section ClaimC10

/-- The two copies of the last-uuid helper agree definitionally. -/
theorem getLastUuid_copies_agree (lines : List (Option Rec)) :
    ContinuationDetector.getLastUuidOptimizedCD lines =
      Discovery.getLastUuidOptimized lines := rfl

/-- The two copies of the uuid-map pass agree. -/
theorem buildUuidMap_copies_agree (l : List ConversationFile) :
    ∀ m, ContinuationDetector.buildUuidMapCD l m = Discovery.buildUuidMap l m := by
  induction l with
  | nil => intro m; rfl
  | cons c rest ih =>
      intro m
      have e1 : ContinuationDetector.buildUuidMapCD (c :: rest) m =
          (if optTruthy (Discovery.getLastUuidOptimized c.lines) &&
              (alookup m ((Discovery.getLastUuidOptimized c.lines).getD "")).isNone then
            ContinuationDetector.buildUuidMapCD rest
              (m ++ [((Discovery.getLastUuidOptimized c.lines).getD "", c.session_id)])
          else ContinuationDetector.buildUuidMapCD rest m) := rfl
      have e2 : Discovery.buildUuidMap (c :: rest) m =
          (if optTruthy (Discovery.getLastUuidOptimized c.lines) &&
              (alookup m ((Discovery.getLastUuidOptimized c.lines).getD "")).isNone then
            Discovery.buildUuidMap rest
              (m ++ [((Discovery.getLastUuidOptimized c.lines).getD "", c.session_id)])
          else Discovery.buildUuidMap rest m) := rfl
      rw [e1, e2]
      split_ifs
      · exact ih _
      · exact ih m

/-- C10: the duplicated chain-resolution implementations of
`discovery.py` and `continuation_detector.py` compute identical chain
mappings on every conversation list. -/
theorem C10_duplicate_chain_finders_agree (convs : List ConversationFile) :
    Discovery.find_continuation_chains convs =
      ContinuationDetector.find_continuation_chains convs := by
  simp only [Discovery.find_continuation_chains,
    ContinuationDetector.find_continuation_chains, buildUuidMap_copies_agree]

end ClaimC10

section ClaimC8

/-- C8 (code bug): the SDK confidence scaling for conversations longer
than 6 records is dead code.  At the failing input — exact-phrase flags
set, pure structured reply, 7 records — the code returns `0.9 * 0.7 = 0.63`
where the claim (and the unreachable `elif` branch) demand `0.9 * 0.4 =
0.36`; the 1.0 cap does hold for all inputs. -/
theorem C8_sdk_scaling_dead_branch :
    SdkDetector.calculate_confidence_score false true false true false true
        true false 7 = 63/100 ∧
    SdkDetector.calculate_confidence_score false true false true false true
        true false 7 ≠ 9/25 ∧
    ∀ (a b c d e f g h : Bool) (mc : Nat),
      SdkDetector.calculate_confidence_score a b c d e f g h mc ≤ 1 := by
  refine ⟨?_, ?_, ?_⟩
  · norm_num [SdkDetector.calculate_confidence_score, SdkDetector.rawSdkScore]
  · norm_num [SdkDetector.calculate_confidence_score, SdkDetector.rawSdkScore]
  · intro a b c d e f g h mc
    unfold SdkDetector.calculate_confidence_score
    exact min_le_right _ _

end ClaimC8

section ClaimC6

/-- Setting a key and looking it up returns the new value. -/
theorem alookup_aset_self {α : Type} (m : List (String × α)) (k : String) (v : α) :
    alookup (aset m k v) k = some v := by
  induction m with
  | nil => simp [aset, alookup]
  | cons p rest ih =>
      by_cases h : p.1 = k
      · simp [aset, alookup, h]
      · simp only [aset]
        rw [if_neg h]
        simp only [alookup]
        rw [if_neg h]
        exact ih

/-- C6 (amended): a cached entry is invalidated exactly when the version
tag differs, the live modification time is newer than the cached one, or
the live size differs (an older live mtime with unchanged size is not
detected); a stat failure always invalidates; and caching a result and
re-querying with the same stat is a cache hit returning the identical
analysis. -/
theorem C6_cache_invalidation (cache : Cache.CacheMap) (conv : ConversationFile)
    (st : Cache.Stat) (path : String) (e : Cache.CacheEntry) (st' : Cache.Stat)
    (hl : alookup cache path = some e) :
    Cache.get_cached_result (Cache.cache_result cache conv (some st)) conv.path
        (some st) = some conv ∧
    (Cache.should_reanalyze cache path (some st') = false ↔
      e.analysis_version = Cache.CACHE_VERSION ∧ st'.mtime ≤ e.last_modified ∧
        st'.size = e.file_size) ∧
    Cache.should_reanalyze cache path none = true := by
  refine ⟨?_, ?_, ?_⟩
  · have hset : alookup (Cache.cache_result cache conv (some st)) conv.path =
        some { file_path := conv.path, last_modified := st.mtime,
               file_size := st.size, analysis_result := conv,
               analysis_version := Cache.CACHE_VERSION } := by
      simp only [Cache.cache_result]
      exact alookup_aset_self _ _ _
    simp [Cache.get_cached_result, Cache.should_reanalyze, hset]
  · simp only [Cache.should_reanalyze, hl]
    constructor
    · intro h
      split_ifs at h with h1 h2 h3
      exact ⟨not_not.mp h1, not_lt.mp h2, not_not.mp h3⟩
    · rintro ⟨h1, h2, h3⟩
      rw [if_neg (by simp [h1]), if_neg (not_lt.mpr h2), if_neg (by simp [h3])]
  · simp only [Cache.should_reanalyze, hl]
    split_ifs <;> rfl

/-- A concrete cache entry used to exhibit the missed invalidation. -/
def cacheCexEntry : Cache.CacheEntry :=
  { file_path := "p", last_modified := 100, file_size := 5
  , analysis_result := {}, analysis_version := "2.1.0" }

/-- A one-entry cache for the C6 counterexample. -/
def cacheCex : Cache.CacheMap := [("p", cacheCexEntry)]

/-- C6 counterexample: the live file has mtime 50 where the cache recorded
100 — the modification-time key differs from the live value — yet the entry
is not invalidated and the cached result is returned, contradicting
"invalidated whenever any of the entry's mtime, size or version keys differ
from the live file". -/
theorem C6_counterexample :
    Cache.should_reanalyze cacheCex "p"
        (some { mtime := 50, size := 5 }) = false ∧
    ((50 : ℚ) ≠ (100 : ℚ)) ∧
    Cache.get_cached_result cacheCex "p" (some { mtime := 50, size := 5 }) =
      some ({} : ConversationFile) := by
  refine ⟨?_, by norm_num, ?_⟩
  · simp only [Cache.should_reanalyze, cacheCex, cacheCexEntry, alookup]
    norm_num [Cache.CACHE_VERSION]
  · simp only [Cache.get_cached_result, Cache.should_reanalyze, cacheCex,
      cacheCexEntry, alookup]
    norm_num [Cache.CACHE_VERSION]

/-- Witness for C6: the invalidation characterization and the cache-hit
round trip at a concrete cache, entry and stat. -/
theorem C6_cache_invalidation_witness :
    alookup cacheCex "p" = some cacheCexEntry ∧
    (Cache.get_cached_result
        (Cache.cache_result cacheCex {} (some { mtime := 7, size := 3 })) ""
        (some { mtime := 7, size := 3 }) = some ({} : ConversationFile) ∧
      (Cache.should_reanalyze cacheCex "p" (some { mtime := 100, size := 5 }) = false ↔
        cacheCexEntry.analysis_version = Cache.CACHE_VERSION ∧
          (100 : ℚ) ≤ cacheCexEntry.last_modified ∧
          (5 : Nat) = cacheCexEntry.file_size) ∧
      Cache.should_reanalyze cacheCex "p" none = true) :=
  ⟨rfl, C6_cache_invalidation cacheCex {} { mtime := 7, size := 3 } "p"
    cacheCexEntry { mtime := 100, size := 5 } rfl⟩

end ClaimC6

section ClaimC3

/-- Rule table of the specification, written from the words of claim C3:
+0.40 single continuation summary, +0.30 session-id transition, +0.20
parent-session-id present, +0.10 starts-with-summary with one summary,
−0.30 for more than two summaries, −0.20 for no summary. -/
def specRuleTableSum (is_single_summary : Bool) (summary_count : Nat)
    (has_session_transitions : Bool) (starts_with_summary : Bool)
    (parent_session_id : Option String) : ℚ :=
  (if is_single_summary then 2/5 else 0) +
  (if has_session_transitions then 3/10 else 0) +
  (if optTruthy parent_session_id then 1/5 else 0) +
  (if starts_with_summary && summary_count == 1 then 1/10 else 0) +
  (if summary_count > 2 then -(3/10) else 0) +
  (if summary_count == 0 then -(1/5) else 0)

/-- The sequential score of the code equals the rule-table sum. -/
theorem rawStructuralScore_eq_sum (s1 : Bool) (cnt : Nat) (tr st : Bool)
    (par : Option String) :
    ContinuationDetector.rawStructuralScore s1 cnt tr st par =
      specRuleTableSum s1 cnt tr st par := by
  simp only [ContinuationDetector.rawStructuralScore, specRuleTableSum]
  split_ifs <;> norm_num

/-- Structural scores stay in the unit interval. -/
theorem calcScore_mem_unit (s1 : Bool) (cnt : Nat) (tr st : Bool)
    (par : Option String) (sdk : Bool) :
    0 ≤ ContinuationDetector.calculate_confidence_score s1 cnt tr st par sdk ∧
      ContinuationDetector.calculate_confidence_score s1 cnt tr st par sdk ≤ 1 := by
  unfold ContinuationDetector.calculate_confidence_score
  split_ifs
  · norm_num
  · exact ⟨le_max_left _ _,
      max_le (by norm_num) (min_le_left _ _)⟩

/-- The explicit-content grades are confined to 0, 0.85, 0.90, 0.95. -/
theorem detectAux_bounds (lines : List (Option Rec)) :
    ∀ k, 0 ≤ (ContinuationDetector.detectExplicitAux lines k).2 ∧
      (ContinuationDetector.detectExplicitAux lines k).2 ≤ 1 := by
  induction lines with
  | nil => intro k; simp [ContinuationDetector.detectExplicitAux]
  | cons l rest ih =>
      intro k
      match l with
      | none => simpa [ContinuationDetector.detectExplicitAux] using ih k
      | some d =>
          simp only [ContinuationDetector.detectExplicitAux]
          split_ifs <;>
            first
              | exact ih (k + 1)
              | exact ih k
              | norm_num

/-- C3 (amended): for every file not flagged SDK-generated, the structural
score is exactly the rule-table sum clamped to the unit interval, the final
confidence is the maximum of the structural and explicit-content scores,
and it lies in the unit interval. -/
theorem C3_rule_table_and_max (conv : ConversationFile)
    (h : conv.is_sdk_generated = false) :
    ContinuationDetector.structuralScoreOf conv =
      ContinuationDetector.clamp01
        (specRuleTableSum (ContinuationDetector.analyze_summary_context conv.lines).1
          (ContinuationDetector.analyze_summary_context conv.lines).2.1
          (ContinuationDetector.detect_session_transitions conv.lines).1
          conv.starts_with_summary conv.parent_session_id) ∧
    (ContinuationDetector.detect_continuation_pattern conv).confidence_score =
      max (ContinuationDetector.structuralScoreOf conv)
        (ContinuationDetector.contentScoreOf conv) ∧
    0 ≤ (ContinuationDetector.detect_continuation_pattern conv).confidence_score ∧
    (ContinuationDetector.detect_continuation_pattern conv).confidence_score ≤ 1 := by
  have hmax : (ContinuationDetector.detect_continuation_pattern conv).confidence_score =
      max (ContinuationDetector.structuralScoreOf conv)
        (ContinuationDetector.contentScoreOf conv) := rfl
  refine ⟨?_, hmax, ?_, ?_⟩
  · simp only [ContinuationDetector.structuralScoreOf,
      ContinuationDetector.calculate_confidence_score, h, Bool.false_eq_true,
      if_false, ContinuationDetector.clamp01, rawStructuralScore_eq_sum]
  · rw [hmax]
    exact le_max_of_le_right (detectAux_bounds conv.lines 0).1
  · rw [hmax]
    exact max_le
      (calcScore_mem_unit _ _ _ _ _ _).2
      (detectAux_bounds conv.lines 0).2

/-- A concrete SDK-flagged file with a single leading summary for the C3
counterexample. -/
def c3cex : ConversationFile :=
  { session_id := "c3", starts_with_summary := true, is_sdk_generated := true
  , lines := [some { type_ := "summary", leafUuid := some "L" }] }

/-- C3 counterexample: for the SDK-flagged file `c3cex` the rule-table sum
clamps to 1/2 (single summary +0.40, starts-with-summary +0.10), but the
structural score the code computes is 0 — the claimed equality fails on
SDK-flagged files. -/
theorem C3_counterexample :
    ContinuationDetector.structuralScoreOf c3cex = 0 ∧
    ContinuationDetector.clamp01
        (specRuleTableSum (ContinuationDetector.analyze_summary_context c3cex.lines).1
          (ContinuationDetector.analyze_summary_context c3cex.lines).2.1
          (ContinuationDetector.detect_session_transitions c3cex.lines).1
          c3cex.starts_with_summary c3cex.parent_session_id) = 1/2 ∧
    ContinuationDetector.structuralScoreOf c3cex ≠
      ContinuationDetector.clamp01
        (specRuleTableSum (ContinuationDetector.analyze_summary_context c3cex.lines).1
          (ContinuationDetector.analyze_summary_context c3cex.lines).2.1
          (ContinuationDetector.detect_session_transitions c3cex.lines).1
          c3cex.starts_with_summary c3cex.parent_session_id) := by
  have h0 : ContinuationDetector.structuralScoreOf c3cex = 0 := rfl
  have hctx : ContinuationDetector.analyze_summary_context c3cex.lines =
      (true, 1, false) := rfl
  have htr : ContinuationDetector.detect_session_transitions c3cex.lines =
      (false, []) := rfl
  have hval : ContinuationDetector.clamp01
      (specRuleTableSum (ContinuationDetector.analyze_summary_context c3cex.lines).1
        (ContinuationDetector.analyze_summary_context c3cex.lines).2.1
        (ContinuationDetector.detect_session_transitions c3cex.lines).1
        c3cex.starts_with_summary c3cex.parent_session_id) = 1/2 := by
    rw [hctx, htr]
    norm_num [specRuleTableSum, ContinuationDetector.clamp01, optTruthy, c3cex]
  refine ⟨h0, hval, ?_⟩
  rw [h0, hval]
  norm_num

/-- A non-SDK file used as the C3 witness input. -/
def c3wit : ConversationFile :=
  { session_id := "c3w", starts_with_summary := true
  , lines := [some { type_ := "summary", leafUuid := some "L" }] }

/-- Witness for C3 at a concrete non-SDK file. -/
theorem C3_rule_table_and_max_witness :
    c3wit.is_sdk_generated = false ∧
    (ContinuationDetector.structuralScoreOf c3wit =
      ContinuationDetector.clamp01
        (specRuleTableSum (ContinuationDetector.analyze_summary_context c3wit.lines).1
          (ContinuationDetector.analyze_summary_context c3wit.lines).2.1
          (ContinuationDetector.detect_session_transitions c3wit.lines).1
          c3wit.starts_with_summary c3wit.parent_session_id) ∧
    (ContinuationDetector.detect_continuation_pattern c3wit).confidence_score =
      max (ContinuationDetector.structuralScoreOf c3wit)
        (ContinuationDetector.contentScoreOf c3wit) ∧
    0 ≤ (ContinuationDetector.detect_continuation_pattern c3wit).confidence_score ∧
    (ContinuationDetector.detect_continuation_pattern c3wit).confidence_score ≤ 1) :=
  ⟨rfl, C3_rule_table_and_max c3wit rfl⟩

end ClaimC3

section ClaimC4

/-- C4 (amended): for every file flagged SDK-generated, the structural score
is forced to 0, and the final continuation confidence equals the
explicit-content score — so it is 0 exactly when no explicit continuation
phrase is found, but explicit content text is not overridden. -/
theorem C4_sdk_zeroes_structural (conv : ConversationFile)
    (h : conv.is_sdk_generated = true) :
    ContinuationDetector.structuralScoreOf conv = 0 ∧
    (ContinuationDetector.detect_continuation_pattern conv).confidence_score =
      ContinuationDetector.contentScoreOf conv := by
  have hs : ContinuationDetector.structuralScoreOf conv = 0 := by
    simp only [ContinuationDetector.structuralScoreOf,
      ContinuationDetector.calculate_confidence_score, h, if_true]
  have hmax : (ContinuationDetector.detect_continuation_pattern conv).confidence_score =
      max (ContinuationDetector.structuralScoreOf conv)
        (ContinuationDetector.contentScoreOf conv) := rfl
  refine ⟨hs, ?_⟩
  rw [hmax, hs]
  exact max_eq_right (detectAux_bounds conv.lines 0).1

/-- A concrete automated-pipeline file that also contains an explicit
continuation phrase in its first user record. -/
def c4cex : ConversationFile :=
  { session_id := "c4", message_count := 3, starts_with_summary := true
  , is_sdk_generated := true
  , lines :=
      [ some { type_ := "summary", leafUuid := some "L1" }
      , some { type_ := "user"
             , msgContent := .str "Analyze this article and extract structured knowledge. We ran out of context." }
      , some { type_ := "assistant"
             , msgContent := .blocks [{ btype := "text", text := "\x7b\"k\": 1\x7d" }] } ] }

/-- C4 counterexample: `c4cex` has SDK detection confidence above 0.8 for
either behaviour of the external JSON validity check (so it is flagged,
matching its `is_sdk_generated` field), yet its continuation confidence is
0.9, not 0 — explicit continuation text survives the SDK override. -/
theorem C4_counterexample :
    (SdkDetector.detect_sdk_pattern (fun _ => false) c4cex).confidence_score > 8/10 ∧
    (SdkDetector.detect_sdk_pattern (fun _ => true) c4cex).confidence_score > 8/10 ∧
    (ContinuationDetector.detect_continuation_pattern c4cex).confidence_score = 9/10 ∧
    (ContinuationDetector.detect_continuation_pattern c4cex).confidence_score ≠ 0 := by
  have h1 : (SdkDetector.detect_sdk_pattern (fun _ => false) c4cex).confidence_score =
      SdkDetector.calculate_confidence_score true true false true true true false true 3 := rfl
  have h2 : (SdkDetector.detect_sdk_pattern (fun _ => true) c4cex).confidence_score =
      SdkDetector.calculate_confidence_score true true false true true true true true 3 := rfl
  have hs : ContinuationDetector.structuralScoreOf c4cex = 0 := rfl
  have hc : ContinuationDetector.contentScoreOf c4cex = 9/10 := rfl
  have hmax : (ContinuationDetector.detect_continuation_pattern c4cex).confidence_score =
      max (ContinuationDetector.structuralScoreOf c4cex)
        (ContinuationDetector.contentScoreOf c4cex) := rfl
  have hconf : (ContinuationDetector.detect_continuation_pattern c4cex).confidence_score = 9/10 := by
    rw [hmax, hs, hc]; norm_num
  refine ⟨?_, ?_, hconf, ?_⟩
  · rw [h1]; norm_num [SdkDetector.calculate_confidence_score, SdkDetector.rawSdkScore]
  · rw [h2]; norm_num [SdkDetector.calculate_confidence_score, SdkDetector.rawSdkScore]
  · rw [hconf]; norm_num

/-- A minimal SDK-flagged file for the C4 witness. -/
def c4wit : ConversationFile := { session_id := "c4w", is_sdk_generated := true }

/-- Witness for C4 at a concrete SDK-flagged file. -/
theorem C4_sdk_zeroes_structural_witness :
    c4wit.is_sdk_generated = true ∧
    (ContinuationDetector.structuralScoreOf c4wit = 0 ∧
      (ContinuationDetector.detect_continuation_pattern c4wit).confidence_score =
        ContinuationDetector.contentScoreOf c4wit) :=
  ⟨rfl, C4_sdk_zeroes_structural c4wit rfl⟩

end ClaimC4

section ClaimC5

/-- State of the explicit-content scan after consuming a prefix without
reaching a verdict: the `messages_checked` counter (`none` when the prefix
already yields a verdict or exhausts the budget). -/
def scanCount : List (Option Rec) → Nat → Option Nat
  | [], k => some k
  | none :: rest, k => scanCount rest k
  | some d :: rest, k =>
      if k ≥ 3 then none
      else if ContinuationDetector.titleHit d then none
      else if d.type_ == "user" || d.type_ == "assistant" then
        if ContinuationDetector.continuation_phrases.any
            (fun p => strHas (strLower (ContinuationDetector.flattenContent d.msgContent)) p) then
          none
        else scanCount rest (k + 1)
      else scanCount rest k

/-- Scanning past a verdict-free prefix only advances the counter. -/
theorem detectAux_append (pre : List (Option Rec)) :
    ∀ (l : List (Option Rec)) (k k' : Nat), scanCount pre k = some k' →
      ContinuationDetector.detectExplicitAux (pre ++ l) k =
        ContinuationDetector.detectExplicitAux l k' := by
  induction pre with
  | nil =>
      intro l k k' h
      simp only [scanCount, Option.some.injEq] at h
      rw [← h]
      rfl
  | cons x rest ih =>
      intro l k k' h
      match x with
      | none =>
          simp only [scanCount] at h
          simp only [List.cons_append, ContinuationDetector.detectExplicitAux]
          exact ih l k k' h
      | some d =>
          simp only [scanCount] at h
          simp only [List.cons_append, ContinuationDetector.detectExplicitAux]
          split_ifs at h ⊢ <;>
            first
              | exact ih l (k + 1) k' h
              | exact ih l k k' h

/-- Occurrence of a concatenation forces occurrence of its first part. -/
theorem listStarts_append (p q l : List Char)
    (h : listStarts (p ++ q) l = true) : listStarts p l = true := by
  induction p generalizing l with
  | nil => rfl
  | cons a as ihp =>
      cases l with
      | nil => simp [listStarts] at h
      | cons b bs =>
          simp only [List.cons_append, listStarts, Bool.and_eq_true] at h ⊢
          exact ⟨h.1, ihp bs h.2⟩

/-- Substring search is monotone under shortening the pattern. -/
theorem listHas_append (p q : List Char) :
    ∀ l, listHas (p ++ q) l = true → listHas p l = true := by
  intro l
  induction l with
  | nil =>
      intro h
      simp only [listHas] at h ⊢
      exact listStarts_append p q [] h
  | cons b bs ihl =>
      intro h
      simp only [listHas, Bool.or_eq_true] at h ⊢
      rcases h with h | h
      · exact Or.inl (listStarts_append p q _ h)
      · exact Or.inr (ihl h)

/-- A text containing the canonical continuation sentence contains its
leading clause. -/
theorem strHas_short_of_canonical (t : String)
    (h : strHas t "this session is being continued from a previous conversation" = true) :
    strHas t "this session is being continued" = true := by
  have hd : ("this session is being continued from a previous conversation").toList =
      ("this session is being continued").toList ++
        (" from a previous conversation").toList := by decide
  unfold strHas at h ⊢
  rw [hd] at h
  exact listHas_append _ _ _ h

/-- Without a session-id transition the structural score cannot exceed 0.7
(the transition weight 0.3 is the only way past 0.4 + 0.2 + 0.1). -/
theorem structural_le_no_trans (s1 : Bool) (cnt : Nat) (st : Bool)
    (par : Option String) (sdk : Bool) :
    ContinuationDetector.calculate_confidence_score s1 cnt false st par sdk ≤ 7/10 := by
  unfold ContinuationDetector.calculate_confidence_score
  split_ifs
  · norm_num
  · refine max_le (by norm_num) (le_trans (min_le_right _ _) ?_)
    rw [rawStructuralScore_eq_sum]
    simp only [specRuleTableSum]
    split_ifs <;> first | exact False.elim (by assumption) | norm_num

/-- C5 (amended): a user-authored record carrying the canonical
continuation sentence, reached within the three-message scan budget with no
earlier verdict, yields confidence 0.95; and when no session-id transition
is observed in the first 30 lines the continuation type is
`true_continuation` (a transition instead forces `post_compaction`). -/
theorem C5_canonical_phrase (conv : ConversationFile)
    (pre rest : List (Option Rec)) (d : Rec) (k : Nat)
    (hlines : conv.lines = pre ++ some d :: rest)
    (hpre : scanCount pre 0 = some k)
    (hk : k < 3)
    (htitle : ContinuationDetector.titleHit d = false)
    (htype : d.type_ = "user")
    (hphrase : strHas (strLower (ContinuationDetector.flattenContent d.msgContent))
        "this session is being continued from a previous conversation" = true)
    (htrans : (ContinuationDetector.detect_session_transitions conv.lines).1 = false) :
    (ContinuationDetector.detect_continuation_pattern conv).confidence_score = 19/20 ∧
    ContinuationDetector.determine_continuation_type
        (ContinuationDetector.detect_continuation_pattern conv) =
      some "true_continuation" := by
  have hshort := strHas_short_of_canonical _ hphrase
  have hany : (ContinuationDetector.continuation_phrases.any
      (fun p => strHas (strLower (ContinuationDetector.flattenContent d.msgContent)) p)) = true := by
    simp only [ContinuationDetector.continuation_phrases, List.any_cons]
    rw [hphrase]
    simp
  have hcontent : ContinuationDetector.detect_explicit_continuation_content conv.lines =
      (true, 19/20) := by
    unfold ContinuationDetector.detect_explicit_continuation_content
    rw [hlines, detectAux_append pre _ 0 k hpre]
    simp only [ContinuationDetector.detectExplicitAux]
    rw [if_neg (by omega), if_neg (by simp [htitle]),
      if_pos (by simp [htype]), if_pos hany, if_pos hshort]
  have hcs : ContinuationDetector.contentScoreOf conv = 19/20 := by
    unfold ContinuationDetector.contentScoreOf
    rw [hcontent]
  have hle : ContinuationDetector.structuralScoreOf conv ≤ 7/10 := by
    unfold ContinuationDetector.structuralScoreOf
    rw [htrans]
    exact structural_le_no_trans _ _ _ _ _
  have hmax : (ContinuationDetector.detect_continuation_pattern conv).confidence_score =
      max (ContinuationDetector.structuralScoreOf conv)
        (ContinuationDetector.contentScoreOf conv) := rfl
  have hconf : (ContinuationDetector.detect_continuation_pattern conv).confidence_score =
      19/20 := by
    rw [hmax, hcs]
    exact max_eq_right (le_trans hle (by norm_num))
  have htr : (ContinuationDetector.detect_continuation_pattern conv).has_session_transitions =
      (ContinuationDetector.detect_session_transitions conv.lines).1 := rfl
  refine ⟨hconf, ?_⟩
  unfold ContinuationDetector.determine_continuation_type
  rw [hconf, htr, htrans]
  norm_num

/-- The user record of the C5 counterexample: the canonical sentence in a
file that also shows a session-id transition. -/
def c5rec : Rec :=
  { type_ := "user", sessionId := some "s1"
  , msgContent := .str "This session is being continued from a previous conversation after compaction." }

/-- C5 counterexample input: the phrase-bearing user record followed by an
assistant record under a different session id. -/
def c5cex : ConversationFile :=
  { session_id := "c5"
  , lines := [some c5rec, some { type_ := "assistant", sessionId := some "s2" }] }

/-- C5 counterexample: the first user record carries the exact phrase and
grading returns 0.95, but the session transition makes the continuation
type `post_compaction`, not `true_continuation` as claimed. -/
theorem C5_counterexample :
    c5rec.type_ = "user" ∧
    strHas (strLower (ContinuationDetector.flattenContent c5rec.msgContent))
      "this session is being continued from a previous conversation" = true ∧
    ContinuationDetector.detect_explicit_continuation_content c5cex.lines =
      (true, 19/20) ∧
    (ContinuationDetector.detect_continuation_pattern c5cex).confidence_score = 19/20 ∧
    ContinuationDetector.determine_continuation_type
        (ContinuationDetector.detect_continuation_pattern c5cex) =
      some "post_compaction" ∧
    ContinuationDetector.determine_continuation_type
        (ContinuationDetector.detect_continuation_pattern c5cex) ≠
      some "true_continuation" := by
  have hst : ContinuationDetector.structuralScoreOf c5cex =
      max 0 (min 1 (ContinuationDetector.rawStructuralScore false 0 true false none)) := rfl
  have hstv : ContinuationDetector.structuralScoreOf c5cex = 1/10 := by
    rw [hst]
    norm_num [ContinuationDetector.rawStructuralScore, optTruthy]
  have hcs : ContinuationDetector.contentScoreOf c5cex = 19/20 := rfl
  have hmax : (ContinuationDetector.detect_continuation_pattern c5cex).confidence_score =
      max (ContinuationDetector.structuralScoreOf c5cex)
        (ContinuationDetector.contentScoreOf c5cex) := rfl
  have hconf : (ContinuationDetector.detect_continuation_pattern c5cex).confidence_score =
      19/20 := by
    rw [hmax, hstv, hcs]
    norm_num
  have htr : (ContinuationDetector.detect_continuation_pattern c5cex).has_session_transitions =
      true := rfl
  have hty : ContinuationDetector.determine_continuation_type
      (ContinuationDetector.detect_continuation_pattern c5cex) =
      some "post_compaction" := by
    unfold ContinuationDetector.determine_continuation_type
    rw [hconf, htr]
    norm_num
  refine ⟨rfl, by decide, rfl, hconf, hty, ?_⟩
  rw [hty]
  simp

/-- The phrase-bearing user record of the C5 witness (no transition). -/
def c5wrec : Rec :=
  { type_ := "user"
  , msgContent := .str "This session is being continued from a previous conversation. Context follows." }

/-- C5 witness input: a single-record file. -/
def c5wit : ConversationFile := { session_id := "c5w", lines := [some c5wrec] }

/-- Witness for C5 at a concrete transition-free file. -/
theorem C5_canonical_phrase_witness :
    c5wit.lines = [] ++ some c5wrec :: [] ∧
    scanCount [] 0 = some 0 ∧
    (0 : Nat) < 3 ∧
    ContinuationDetector.titleHit c5wrec = false ∧
    c5wrec.type_ = "user" ∧
    strHas (strLower (ContinuationDetector.flattenContent c5wrec.msgContent))
      "this session is being continued from a previous conversation" = true ∧
    (ContinuationDetector.detect_session_transitions c5wit.lines).1 = false ∧
    ((ContinuationDetector.detect_continuation_pattern c5wit).confidence_score = 19/20 ∧
      ContinuationDetector.determine_continuation_type
          (ContinuationDetector.detect_continuation_pattern c5wit) =
        some "true_continuation") :=
  ⟨rfl, rfl, by decide, rfl, rfl, by decide, rfl,
    C5_canonical_phrase c5wit [] [] c5wrec 0 rfl rfl (by decide) rfl rfl
      (by decide) rfl⟩

end ClaimC5


section ClaimC1

/-- Left-biased choice on options (used to state dictionary lookups over
appended entries). -/
def optOr {α : Type} : Option α → Option α → Option α
  | some v, _ => some v
  | none, o => o

/-- Lookup distributes over a single appended entry. -/
theorem alookup_append_single {α : Type} (m : List (String × α)) (u : String)
    (v : α) (q : String) :
    alookup (m ++ [(u, v)]) q =
      optOr (alookup m q) (if u = q then some v else none) := by
  induction m with
  | nil => simp [alookup, optOr]
  | cons p rest ih =>
      by_cases h : p.1 = q
      · simp [alookup, h, optOr]
      · simpa [alookup, h] using ih

/-- The walrus guard of `_get_last_uuid_optimized` never yields an empty
uuid. -/
theorem lineUuid_ne_empty (l : Option Rec) : Discovery.lineUuid l ≠ some "" := by
  cases l with
  | none => simp [Discovery.lineUuid]
  | some d =>
      simp only [Discovery.lineUuid]
      cases d.uuid with
      | none => simp
      | some u =>
          by_cases h : u = ""
          · simp [h]
          · simp [h]

/-- No scan over lines yields an empty uuid. -/
theorem findSome?_lineUuid_ne_empty (ls : List (Option Rec)) :
    ls.findSome? Discovery.lineUuid ≠ some "" := by
  induction ls with
  | nil => simp
  | cons a as ih =>
      rw [List.findSome?_cons]
      cases ha : Discovery.lineUuid a with
      | none => simpa using ih
      | some u =>
          intro h
          exact lineUuid_ne_empty a (by rw [ha]; exact h)

/-- The last-uuid helper never returns an empty string. -/
theorem getLastUuid_ne_empty (lines : List (Option Rec)) :
    Discovery.getLastUuidOptimized lines ≠ some "" := by
  have e : Discovery.getLastUuidOptimized lines =
      (match (lines.drop (lines.length - 20)).reverse.findSome? Discovery.lineUuid with
       | some u => some u
       | none => (lines.take (lines.length - 20)).reverse.findSome? Discovery.lineUuid) := rfl
  rw [e]
  cases h1 : (lines.drop (lines.length - 20)).reverse.findSome? Discovery.lineUuid with
  | none => exact findSome?_lineUuid_ne_empty _
  | some u =>
      intro h
      exact findSome?_lineUuid_ne_empty
        ((lines.drop (lines.length - 20)).reverse) (by rw [h1]; exact h)

/-- Characterization of the terminal-identifier map: a uuid resolves to the
session of the first conversation, in scan order, whose last uuid it is. -/
theorem buildUuidMap_lookup (l : List ConversationFile) :
    ∀ (m : List (String × String)) (q : String),
      alookup (Discovery.buildUuidMap l m) q =
        optOr (alookup m q)
          ((l.find? (fun c =>
              Discovery.getLastUuidOptimized c.lines == some q)).map
            (fun c => c.session_id)) := by
  induction l with
  | nil =>
      intro m q
      have e0 : Discovery.buildUuidMap [] m = m := rfl
      rw [e0]
      cases alookup m q <;> rfl
  | cons c rest ih =>
      intro m q
      have e : Discovery.buildUuidMap (c :: rest) m =
          (if optTruthy (Discovery.getLastUuidOptimized c.lines) &&
              (alookup m ((Discovery.getLastUuidOptimized c.lines).getD "")).isNone then
            Discovery.buildUuidMap rest
              (m ++ [((Discovery.getLastUuidOptimized c.lines).getD "", c.session_id)])
          else Discovery.buildUuidMap rest m) := rfl
      rw [e]
      cases hglu : Discovery.getLastUuidOptimized c.lines with
      | none =>
          rw [List.find?_cons_of_neg _ (by simp [hglu])]
          rw [if_neg (by simp [optTruthy])]
          exact ih m q
      | some u =>
          by_cases hu : u = ""
          · exact absurd (hu ▸ hglu) (getLastUuid_ne_empty c.lines)
          · simp only [Option.getD_some]
            by_cases hq : u = q
            · subst hq
              rw [List.find?_cons_of_pos _ (by simp [hglu])]
              cases hm : alookup m u with
              | none =>
                  rw [if_pos (by simp [optTruthy, hu, hm])]
                  rw [ih _ u, alookup_append_single, hm]
                  simp [optOr]
              | some v =>
                  rw [if_neg (by simp [optTruthy, hm])]
                  rw [ih m u, hm]
                  simp [optOr]
            · rw [List.find?_cons_of_neg _ (by simp [hglu, hq])]
              cases hm : alookup m u with
              | none =>
                  rw [if_pos (by simp [optTruthy, hu, hm])]
                  rw [ih _ q, alookup_append_single, if_neg hq]
                  cases alookup m q <;> simp [optOr]
              | some v =>
                  rw [if_neg (by simp [optTruthy, hm])]
                  exact ih m q

/-- Appending under a key makes the value a member of that key's list. -/
theorem mem_dictAppend_self (m : List (String × List String)) (k v : String) :
    v ∈ (alookup (dictAppend m k v) k).getD [] := by
  induction m with
  | nil => simp [dictAppend, alookup]
  | cons p rest ih =>
      by_cases h : p.1 = k
      · simp [dictAppend, alookup, h]
      · simp only [dictAppend]
        rw [if_neg h]
        simp only [alookup]
        rw [if_neg h]
        exact ih

/-- Appending under any key preserves memberships. -/
theorem mem_dictAppend_mono (m : List (String × List String)) (k v q x : String)
    (h : x ∈ (alookup m q).getD []) :
    x ∈ (alookup (dictAppend m k v) q).getD [] := by
  induction m with
  | nil => simp [alookup] at h
  | cons p rest ih =>
      by_cases hp : p.1 = q
      · by_cases hk : p.1 = k
        · subst hk
          simp only [alookup, if_pos hp] at h
          simp only [dictAppend, if_pos rfl, alookup, if_pos hp]
          exact List.mem_append_left _ h
        · simp only [alookup, if_pos hp] at h
          simp only [dictAppend, if_neg hk, alookup, if_pos hp]
          exact h
      · by_cases hk : p.1 = k
        · subst hk
          simp only [alookup, if_neg hp] at h
          simp only [dictAppend, if_pos rfl, alookup, if_neg hp]
          exact h
        · simp only [alookup, if_neg hp] at h
          simp only [dictAppend, if_neg hk, alookup, if_neg hp]
          exact ih h

/-- The summary-resolution pass only ever appends children. -/
theorem chainsPhase2_mono (umap : List (String × String))
    (l : List ConversationFile) :
    ∀ (acc : List (String × List String)) (q x : String),
      x ∈ (alookup acc q).getD [] →
      x ∈ (alookup (Discovery.chainsPhase2 umap l acc) q).getD [] := by
  induction l with
  | nil => intro acc q x h; exact h
  | cons c rest ih =>
      intro acc q x h
      have e : Discovery.chainsPhase2 umap (c :: rest) acc =
          (if c.starts_with_summary && optTruthy c.leaf_uuid && !c.is_completion_marker then
            if optTruthy (alookup umap (c.leaf_uuid.getD "")) &&
                !((alookup umap (c.leaf_uuid.getD "")) == some c.session_id) then
              Discovery.chainsPhase2 umap rest
                (dictAppend acc ((alookup umap (c.leaf_uuid.getD "")).getD "") c.session_id)
            else Discovery.chainsPhase2 umap rest acc
          else Discovery.chainsPhase2 umap rest acc) := rfl
      rw [e]
      split_ifs
      · exact ih _ q x (mem_dictAppend_mono acc _ c.session_id q x h)
      · exact ih acc q x h
      · exact ih acc q x h

/-- A qualifying conversation contributes an edge under its resolved
parent. -/
theorem chainsPhase2_adds (umap : List (String × String))
    (l : List ConversationFile) (B : ConversationFile) (X p : String)
    (hB : B ∈ l)
    (h1 : B.starts_with_summary = true) (h2 : B.leaf_uuid = some X)
    (hX : X ≠ "") (h3 : B.is_completion_marker = false)
    (h4 : alookup umap X = some p) (hp : p ≠ "") (hne : p ≠ B.session_id) :
    ∀ acc, B.session_id ∈
      (alookup (Discovery.chainsPhase2 umap l acc) p).getD [] := by
  induction l with
  | nil => cases hB
  | cons c rest ih =>
      intro acc
      have e : Discovery.chainsPhase2 umap (c :: rest) acc =
          (if c.starts_with_summary && optTruthy c.leaf_uuid && !c.is_completion_marker then
            if optTruthy (alookup umap (c.leaf_uuid.getD "")) &&
                !((alookup umap (c.leaf_uuid.getD "")) == some c.session_id) then
              Discovery.chainsPhase2 umap rest
                (dictAppend acc ((alookup umap (c.leaf_uuid.getD "")).getD "") c.session_id)
            else Discovery.chainsPhase2 umap rest acc
          else Discovery.chainsPhase2 umap rest acc) := rfl
      rw [e]
      rcases List.mem_cons.mp hB with hBc | hBrest
      · subst hBc
        rw [h2]
        simp only [Option.getD_some]
        rw [h4]
        rw [if_pos (by simp [h1, optTruthy, hX, h3])]
        rw [if_pos (by simp [optTruthy, hp, hne])]
        simp only [Option.getD_some]
        exact chainsPhase2_mono umap rest _ p B.session_id
          (mem_dictAppend_self acc p B.session_id)
      · split_ifs <;> exact ih hBrest _

/-- C1: in the continuation-chain pass, every terminal identifier resolves
to the earliest file (in first-timestamp order) whose last uuid it is, and
every file that starts with a summary, has a truthy leaf uuid, is not a
completion marker, and resolves to a parent other than itself receives a
continuation edge parent → file. -/
theorem C1_continuation_resolution (convs : List ConversationFile)
    (B : ConversationFile) (X p : String)
    (hB : B ∈ convs)
    (h1 : B.starts_with_summary = true) (h2 : B.leaf_uuid = some X)
    (hX : X ≠ "") (h3 : B.is_completion_marker = false)
    (h4 : alookup (Discovery.buildUuidMap (Discovery.sortedByTs convs) []) X = some p)
    (hp : p ≠ "") (hne : p ≠ B.session_id) :
    B.session_id ∈
      Discovery.chainChildren (Discovery.find_continuation_chains convs) p ∧
    ∀ q, alookup (Discovery.buildUuidMap (Discovery.sortedByTs convs) []) q =
      (((Discovery.sortedByTs convs).find? (fun c =>
          Discovery.getLastUuidOptimized c.lines == some q)).map
        (fun c => c.session_id)) := by
  constructor
  · exact chainsPhase2_adds _ convs B X p hB h1 h2 hX h3 h4 hp hne _
  · intro q
    rw [buildUuidMap_lookup]
    rfl

/-- Earlier conversation of the C1 witness: its last uuid is `X`. -/
def c1A : ConversationFile :=
  { path := "pa", session_id := "A", first_timestamp := some "t1"
  , lines := [some { uuid := some "u1" }, some { uuid := some "X" }] }

/-- Later conversation of the C1 witness: starts with a summary whose leaf
uuid is `X`. -/
def c1B : ConversationFile :=
  { path := "pb", session_id := "B", first_timestamp := some "t2"
  , starts_with_summary := true, leaf_uuid := some "X"
  , lines := [some { type_ := "summary", leafUuid := some "X" }
             , some { uuid := some "uB" }] }

/-- Witness for C1: resolving the two-file set produces the continuation
edge A → B. -/
theorem C1_continuation_resolution_witness :
    c1B ∈ [c1B, c1A] ∧
    alookup (Discovery.buildUuidMap (Discovery.sortedByTs [c1B, c1A]) []) "X" =
      some "A" ∧
    "B" ∈ Discovery.chainChildren
      (Discovery.find_continuation_chains [c1B, c1A]) "A" :=
  ⟨by simp, rfl,
    (C1_continuation_resolution [c1B, c1A] c1B "X" "A" (by simp) rfl rfl
      (by decide) rfl rfl (by decide) (by decide)).1⟩

end ClaimC1

section ClaimC9

/-- A vacuous walk (no current uuid) returns the empty path at any fuel. -/
theorem walk_none (nodes : List (String × Models.MessageNode)) :
    ∀ fuel, Models.walk nodes fuel none = some [] := by
  intro fuel
  cases fuel <;> rfl

/-- The while-loop of `extract_path` follows a finite ancestor chain
exactly: with enough fuel it returns the chain, whose head is the node of
the leaf, whose last node is parentless, and whose links all match. -/
theorem walk_of_reaches (nodes : List (String × Models.MessageNode))
    (hkey : ∀ u n, alookup nodes u = some n → n.uuid = u)
    {u : String} {l : List Models.MessageNode}
    (hr : Models.ReachesRoot nodes u l) :
    ∀ fuel, l.length ≤ fuel →
      Models.walk nodes fuel (some u) = some l ∧
      l ≠ [] ∧
      (∃ h, l.head? = some h ∧ h.uuid = u) ∧
      (∃ t, l.getLast? = some t ∧ t.parent_uuid = none) ∧
      List.Chain' (fun a b => a.parent_uuid = some b.uuid) l := by
  induction hr with
  | root hlook hpar =>
      rename_i u n
      intro fuel hfuel
      obtain ⟨f, rfl⟩ : ∃ f, fuel = f + 1 := ⟨fuel - 1, by simp at hfuel; omega⟩
      have ew : Models.walk nodes (f + 1) (some u) =
          (match alookup nodes u with
           | none => none
           | some n =>
               match Models.walk nodes f n.parent_uuid with
               | none => none
               | some l => some (n :: l)) := rfl
      refine ⟨?_, by simp, ⟨n, rfl, hkey _ _ hlook⟩, ⟨n, rfl, hpar⟩, by simp⟩
      rw [ew, hlook]
      show (match Models.walk nodes f n.parent_uuid with
            | none => none
            | some l => some (n :: l)) = some [n]
      rw [hpar, walk_none]
  | step hlook hpar hrec ih =>
      rename_i u n p l'
      intro fuel hfuel
      obtain ⟨f, rfl⟩ : ∃ f, fuel = f + 1 := ⟨fuel - 1, by simp at hfuel; omega⟩
      have hf' : l'.length ≤ f := by simp at hfuel; omega
      obtain ⟨hwalk', hne', ⟨h', hh1, hh2⟩, ⟨t', ht1, ht2⟩, hchain'⟩ := ih f hf'
      have ew : Models.walk nodes (f + 1) (some u) =
          (match alookup nodes u with
           | none => none
           | some n =>
               match Models.walk nodes f n.parent_uuid with
               | none => none
               | some l => some (n :: l)) := rfl
      refine ⟨?_, by simp, ⟨n, rfl, hkey _ _ hlook⟩, ?_, ?_⟩
      · rw [ew, hlook]
        show (match Models.walk nodes f n.parent_uuid with
              | none => none
              | some l => some (n :: l)) = some (n :: l')
        rw [hpar, hwalk']
      · cases l' with
        | nil => exact absurd rfl hne'
        | cons a as => exact ⟨t', by rw [List.getLast?_cons_cons]; exact ht1, ht2⟩
      · rw [List.chain'_cons']
        refine ⟨?_, hchain'⟩
        intro b hb
        rw [hh1, Option.mem_some_iff] at hb
        rw [hpar, ← hb, hh2]

/-- Specification of one `extract_path` call under the chain hypothesis. -/
theorem extract_path_spec (g : Models.ConversationDAG) (fuel : Nat)
    (leaf : String)
    (hkey : ∀ u n, alookup g.nodes u = some n → n.uuid = u)
    (hr : ∃ l, Models.ReachesRoot g.nodes leaf l ∧ l.length ≤ fuel) :
    ∃ pth, Models.extract_path g fuel leaf = some pth ∧
      pth.messages ≠ [] ∧
      (∃ h, pth.messages.head? = some h ∧ h.parent_uuid = none) ∧
      (∃ t, pth.messages.getLast? = some t ∧ t.uuid = leaf) ∧
      List.Chain' (fun a b => b.parent_uuid = some a.uuid) pth.messages := by
  obtain ⟨l, hl, hlen⟩ := hr
  obtain ⟨hwalk, hne, ⟨h, hh1, hh2⟩, ⟨t, ht1, ht2⟩, hchain⟩ :=
    walk_of_reaches g.nodes hkey hl fuel hlen
  have e : Models.extract_path g fuel leaf =
      some { root_uuid := g.root_uuid
           , leaf_uuid := leaf
           , messages := l.reverse
           , branch_points :=
               ((l.reverse.filter (fun n =>
                 (Models.get_children g n.uuid).length > 1)).map
                   Models.MessageNode.uuid)
           , path_length := l.reverse.length
           , created_at :=
               ((l.reverse.head?).map Models.MessageNode.timestamp).getD ""
           , updated_at :=
               ((l.reverse.getLast?).map Models.MessageNode.timestamp).getD "" } := by
    unfold Models.extract_path
    rw [hwalk]
  refine ⟨_, e, ?_, ?_, ?_, ?_⟩
  · simpa using hne
  · exact ⟨t, by rw [List.head?_reverse]; exact ht1, ht2⟩
  · exact ⟨h, by rw [List.getLast?_reverse]; exact hh1, hh2⟩
  · exact List.chain'_reverse.mpr hchain

/-- C9: when every leaf has a finite, acyclic ancestor chain inside the
arena (stated as the existence of the chain the walk follows) and the arena
is keyed by node uuid, `extract_path` terminates on every leaf — any fuel
at least the chain length returns the same path — the extracted path runs
from a parentless root node to the leaf node with matching parent links,
and `get_all_paths` returns exactly one such path per entry of
`leaf_uuids`. -/
theorem C9_paths_spec (g : Models.ConversationDAG) (fuel : Nat)
    (hkey : ∀ u n, alookup g.nodes u = some n → n.uuid = u)
    (hre : ∀ leaf ∈ g.leaf_uuids,
      ∃ l, Models.ReachesRoot g.nodes leaf l ∧ l.length ≤ fuel) :
    ∃ ps, Models.get_all_paths g fuel = some ps ∧
      ps.length = g.leaf_uuids.length ∧
      List.Forall₂ (fun leaf pth =>
        Models.extract_path g fuel leaf = some pth ∧
        pth.messages ≠ [] ∧
        (∃ h, pth.messages.head? = some h ∧ h.parent_uuid = none) ∧
        (∃ t, pth.messages.getLast? = some t ∧ t.uuid = leaf) ∧
        List.Chain' (fun a b => b.parent_uuid = some a.uuid) pth.messages)
        g.leaf_uuids ps := by
  unfold Models.get_all_paths
  have main : ∀ leaves : List String,
      (∀ leaf ∈ leaves, ∃ l, Models.ReachesRoot g.nodes leaf l ∧ l.length ≤ fuel) →
      ∃ ps, leaves.mapM (Models.extract_path g fuel) = some ps ∧
        ps.length = leaves.length ∧
        List.Forall₂ (fun leaf pth =>
          Models.extract_path g fuel leaf = some pth ∧
          pth.messages ≠ [] ∧
          (∃ h, pth.messages.head? = some h ∧ h.parent_uuid = none) ∧
          (∃ t, pth.messages.getLast? = some t ∧ t.uuid = leaf) ∧
          List.Chain' (fun a b => b.parent_uuid = some a.uuid) pth.messages)
          leaves ps := by
    intro leaves
    induction leaves with
    | nil => intro _; exact ⟨[], rfl, rfl, List.Forall₂.nil⟩
    | cons a as ih =>
        intro hre'
        obtain ⟨pth, hpe, hp1, hp2, hp3, hp4⟩ :=
          extract_path_spec g fuel a hkey (hre' a (List.mem_cons_self a as))
        obtain ⟨ps, hps, hlen, hfa⟩ :=
          ih (fun leaf hm => hre' leaf (List.mem_cons_of_mem a hm))
        refine ⟨pth :: ps, ?_, by simp [hlen], List.Forall₂.cons ⟨hpe, hp1, hp2, hp3, hp4⟩ hfa⟩
        rw [List.mapM_cons, hpe, hps]
        rfl
  exact main g.leaf_uuids hre

/-- Root node of the C9 witness graph. -/
def c9root : Models.MessageNode := { uuid := "r" }

/-- Child node of the C9 witness graph. -/
def c9a : Models.MessageNode := { uuid := "a", parent_uuid := some "r" }

/-- Two-node witness graph with a single leaf. -/
def c9g : Models.ConversationDAG :=
  { nodes := [("r", c9root), ("a", c9a)], root_uuid := "r", leaf_uuids := ["a"] }

/-- Witness for C9 on the two-node graph with fuel 2. -/
theorem C9_paths_spec_witness :
    (∀ u n, alookup c9g.nodes u = some n → n.uuid = u) ∧
    (∀ leaf ∈ c9g.leaf_uuids,
      ∃ l, Models.ReachesRoot c9g.nodes leaf l ∧ l.length ≤ 2) ∧
    (∃ ps, Models.get_all_paths c9g 2 = some ps ∧
      ps.length = c9g.leaf_uuids.length ∧
      List.Forall₂ (fun leaf pth =>
        Models.extract_path c9g 2 leaf = some pth ∧
        pth.messages ≠ [] ∧
        (∃ h, pth.messages.head? = some h ∧ h.parent_uuid = none) ∧
        (∃ t, pth.messages.getLast? = some t ∧ t.uuid = leaf) ∧
        List.Chain' (fun a b => b.parent_uuid = some a.uuid) pth.messages)
        c9g.leaf_uuids ps) := by
  have hkey : ∀ u n, alookup c9g.nodes u = some n → n.uuid = u := by
    intro u n h
    simp only [c9g, alookup] at h
    split_ifs at h with h1 h2
    · cases h; rw [← h1]; rfl
    · cases h; rw [← h2]; rfl
  have hre : ∀ leaf ∈ c9g.leaf_uuids,
      ∃ l, Models.ReachesRoot c9g.nodes leaf l ∧ l.length ≤ 2 := by
    intro leaf hm
    have : leaf = "a" := by simpa [c9g] using hm
    subst this
    exact ⟨[c9a, c9root],
      Models.ReachesRoot.step rfl rfl (Models.ReachesRoot.root rfl rfl),
      by simp⟩
  exact ⟨hkey, hre, C9_paths_spec c9g 2 hkey hre⟩

end ClaimC9

section ClaimC2

/-- The snapshot overlap link is symmetric. -/
theorem overlapLinked_symm (a b : ConversationFile) :
    Discovery.overlapLinked a b = Discovery.overlapLinked b a := by
  simp only [Discovery.overlapLinked]
  rw [show a.message_uuids ∩ b.message_uuids = b.message_uuids ∩ a.message_uuids
      from Finset.inter_comm _ _,
    min_comm a.message_uuids.card b.message_uuids.card]

/-- Stable insertion permutes to consing. -/
theorem stableInsert_perm {α : Type} (le : α → α → Bool) (c : α) (l : List α) :
    (stableInsert le c l).Perm (c :: l) := by
  induction l with
  | nil => simp [stableInsert]
  | cons d rest ih =>
      simp only [stableInsert]
      split_ifs
      · exact List.Perm.refl _
      · exact (List.Perm.cons d ih).trans (List.Perm.swap c d rest)

/-- Stable insertion sort is a permutation. -/
theorem stableSort_perm {α : Type} (le : α → α → Bool) (l : List α) :
    (stableSort le l).Perm l := by
  induction l with
  | nil => exact List.Perm.refl _
  | cons c rest ih =>
      exact (stableInsert_perm le c (stableSort le rest)).trans (List.Perm.cons c ih)

/-- The defaulted last element of a non-empty list is a member. -/
theorem getLast?_getD_mem {α : Type} (l : List α) (d : α) (h : l ≠ []) :
    (l.getLast?).getD d ∈ l := by
  induction l with
  | nil => exact absurd rfl h
  | cons a as ih =>
      cases as with
      | nil => simp
      | cons b bs =>
          rw [List.getLast?_cons_cons]
          exact List.mem_cons_of_mem a (ih (by simp))

/-- The survivor choice stays inside the group. -/
theorem pickSelected_mem (seed : ConversationFile) (g : List ConversationFile)
    (h : g ≠ []) : Discovery.pickSelected seed g ∈ g := by
  unfold Discovery.pickSelected
  cases hf : g.reverse.find? (fun x => x.starts_with_summary) with
  | some x => exact List.mem_reverse.mp (List.mem_of_find?_eq_some hf)
  | none => exact getLast?_getD_mem g seed h

/-- Marking keeps the path. -/
theorem markSnapshot_path (g : ConversationFile) :
    (Discovery.markSnapshot g).path = g.path := rfl

/-- Marking sets the snapshot flags. -/
theorem markSnapshot_flags (g : ConversationFile) :
    (Discovery.markSnapshot g).is_snapshot = true ∧
      (Discovery.markSnapshot g).snapshot_type = some "intermediate" := ⟨rfl, rfl⟩

/-- The inner collection loop appends exactly the linked unprocessed files,
recording their paths: the appended files come from the scanned list and
were unprocessed at entry. -/
theorem cg_go (seed : ConversationFile) (l : List ConversationFile) :
    ∀ (gr : List ConversationFile) (pr : List String),
      ∃ Δ : List ConversationFile,
        l.foldl (Discovery.cgStep seed) (gr, pr) =
          (gr ++ Δ, pr ++ Δ.map ConversationFile.path) ∧
        (∀ o ∈ Δ, o ∈ l ∧ o.path ∉ pr) := by
  induction l with
  | nil => intro gr pr; exact ⟨[], by simp, by simp⟩
  | cons x rest ih =>
      intro gr pr
      rw [List.foldl_cons]
      simp only [Discovery.cgStep]
      split_ifs with h1 h2 h3
      · obtain ⟨Δ, hfold, hmem⟩ := ih gr pr
        exact ⟨Δ, hfold, fun o ho =>
          ⟨List.mem_cons_of_mem _ (hmem o ho).1, (hmem o ho).2⟩⟩
      · obtain ⟨Δ, hfold, hmem⟩ := ih gr pr
        exact ⟨Δ, hfold, fun o ho =>
          ⟨List.mem_cons_of_mem _ (hmem o ho).1, (hmem o ho).2⟩⟩
      · obtain ⟨Δ, hfold, hmem⟩ := ih (gr ++ [x]) (pr ++ [x.path])
        refine ⟨x :: Δ, ?_, ?_⟩
        · rw [hfold]
          simp
        · intro o ho
          rcases List.mem_cons.mp ho with rfl | hoΔ
          · exact ⟨List.mem_cons_self _ _, h1⟩
          · refine ⟨List.mem_cons_of_mem _ (hmem o hoΔ).1, ?_⟩
            intro hc
            exact (hmem o hoΔ).2 (List.mem_append_left _ hc)
      · obtain ⟨Δ, hfold, hmem⟩ := ih gr pr
        exact ⟨Δ, hfold, fun o ho =>
          ⟨List.mem_cons_of_mem _ (hmem o ho).1, (hmem o ho).2⟩⟩

/-- A file with an empty uuid sample is linked to nothing: the overlap is
empty, so the non-emptiness test fails. -/
theorem overlapLinked_empty (a b : ConversationFile)
    (hb : b.message_uuids = ∅) : Discovery.overlapLinked a b = false := by
  simp [Discovery.overlapLinked, hb]

/-- Exact characterization of the inner collection fold: starting from an
already-collected prefix `gr` whose paths are recorded in the processed set,
the fold appends exactly the scanned files that were unprocessed at entry
and overlap-linked to the seed (files with an empty uuid sample are never
linked, so the dedicated skip changes nothing), provided scanned paths are
distinct and fresh for `gr`. -/
theorem cg_exact_go (seed : ConversationFile) (l : List ConversationFile) :
    ∀ (gr : List ConversationFile) (pr0 : List String),
      (∀ o ∈ l, o.path ∉ gr.map ConversationFile.path) →
      (l.map ConversationFile.path).Nodup →
      l.foldl (Discovery.cgStep seed) (gr, pr0 ++ gr.map ConversationFile.path) =
        (gr ++ l.filter (fun o => !(decide (o.path ∈ pr0)) &&
            Discovery.overlapLinked seed o),
          pr0 ++ (gr ++ l.filter (fun o => !(decide (o.path ∈ pr0)) &&
            Discovery.overlapLinked seed o)).map ConversationFile.path) := by
  induction l with
  | nil => intro gr pr0 _ _; simp
  | cons x rest ih =>
      intro gr pr0 hfresh hnd
      have hxg : x.path ∉ gr.map ConversationFile.path :=
        hfresh x (List.mem_cons_self _ _)
      rw [List.map_cons] at hnd
      have hndrest : (rest.map ConversationFile.path).Nodup :=
        (List.nodup_cons.mp hnd).2
      have hxrest : x.path ∉ rest.map ConversationFile.path :=
        (List.nodup_cons.mp hnd).1
      rw [List.foldl_cons]
      by_cases h1 : x.path ∈ pr0 ++ gr.map ConversationFile.path
      · have hx0 : x.path ∈ pr0 := by
          rcases List.mem_append.mp h1 with h | h
          · exact h
          · exact absurd h hxg
        have estep : Discovery.cgStep seed
            (gr, pr0 ++ gr.map ConversationFile.path) x =
            (gr, pr0 ++ gr.map ConversationFile.path) := by
          simp [Discovery.cgStep, h1]
        have hfilt : (x :: rest).filter (fun o => !(decide (o.path ∈ pr0)) &&
            Discovery.overlapLinked seed o) =
            rest.filter (fun o => !(decide (o.path ∈ pr0)) &&
              Discovery.overlapLinked seed o) := by
          rw [List.filter_cons]
          simp [hx0]
        rw [estep, ih gr pr0 (fun o ho => hfresh o (List.mem_cons_of_mem _ ho))
          hndrest, hfilt]
      · have hx0 : x.path ∉ pr0 := fun hc => h1 (List.mem_append_left _ hc)
        by_cases h2 : x.message_uuids = ∅
        · have hov : Discovery.overlapLinked seed x = false :=
            overlapLinked_empty seed x h2
          have estep : Discovery.cgStep seed
              (gr, pr0 ++ gr.map ConversationFile.path) x =
              (gr, pr0 ++ gr.map ConversationFile.path) := by
            simp [Discovery.cgStep, h1, h2]
          have hfilt : (x :: rest).filter (fun o => !(decide (o.path ∈ pr0)) &&
              Discovery.overlapLinked seed o) =
              rest.filter (fun o => !(decide (o.path ∈ pr0)) &&
                Discovery.overlapLinked seed o) := by
            rw [List.filter_cons]
            simp [hov]
          rw [estep, ih gr pr0 (fun o ho => hfresh o (List.mem_cons_of_mem _ ho))
            hndrest, hfilt]
        · by_cases h3 : Discovery.overlapLinked seed x = true
          · have estep : Discovery.cgStep seed
                (gr, pr0 ++ gr.map ConversationFile.path) x =
                (gr ++ [x], (pr0 ++ gr.map ConversationFile.path) ++ [x.path]) := by
              simp [Discovery.cgStep, h1, h2, h3]
            have e2 : (pr0 ++ gr.map ConversationFile.path) ++ [x.path] =
                pr0 ++ (gr ++ [x]).map ConversationFile.path := by
              simp [List.map_append]
            have hfresh' : ∀ o ∈ rest,
                o.path ∉ (gr ++ [x]).map ConversationFile.path := by
              intro o ho hmem
              rw [List.map_append] at hmem
              rcases List.mem_append.mp hmem with h | h
              · exact hfresh o (List.mem_cons_of_mem _ ho) h
              · have hop : o.path = x.path := by simpa using h
                exact hxrest (hop ▸ List.mem_map_of_mem ConversationFile.path ho)
            have hfilt : (x :: rest).filter (fun o => !(decide (o.path ∈ pr0)) &&
                Discovery.overlapLinked seed o) =
                x :: rest.filter (fun o => !(decide (o.path ∈ pr0)) &&
                  Discovery.overlapLinked seed o) := by
              rw [List.filter_cons]
              simp [hx0, h3]
            rw [estep, e2, ih (gr ++ [x]) pr0 hfresh' hndrest, hfilt]
            simp
          · have hov : Discovery.overlapLinked seed x = false := by
              simpa using h3
            have estep : Discovery.cgStep seed
                (gr, pr0 ++ gr.map ConversationFile.path) x =
                (gr, pr0 ++ gr.map ConversationFile.path) := by
              simp [Discovery.cgStep, h1, h2, hov]
            have hfilt : (x :: rest).filter (fun o => !(decide (o.path ∈ pr0)) &&
                Discovery.overlapLinked seed o) =
                rest.filter (fun o => !(decide (o.path ∈ pr0)) &&
                  Discovery.overlapLinked seed o) := by
              rw [List.filter_cons]
              simp [hov]
            rw [estep, ih gr pr0 (fun o ho => hfresh o (List.mem_cons_of_mem _ ho))
              hndrest, hfilt]

/-- The group collected around a seed is exactly the list of scanned files
that are unprocessed and overlap-linked to the seed, provided paths are
distinct. -/
theorem collectGroup_exact (seed : ConversationFile)
    (allNC : List ConversationFile) (pr : List String)
    (hnd : (allNC.map ConversationFile.path).Nodup) :
    (Discovery.collectGroup seed allNC pr).1 =
      allNC.filter (fun o => !(decide (o.path ∈ pr)) &&
        Discovery.overlapLinked seed o) := by
  have h := cg_exact_go seed allNC [] pr (by simp) hnd
  simp only [List.map_nil, List.append_nil, List.nil_append] at h
  unfold Discovery.collectGroup
  rw [h]

/-- Stable insertion into a count-sorted list is count-sorted. -/
theorem stableInsert_sorted (c : ConversationFile) (l : List ConversationFile)
    (h : l.Pairwise (fun a b => a.message_count ≤ b.message_count)) :
    (stableInsert Discovery.countLe c l).Pairwise
      (fun a b => a.message_count ≤ b.message_count) := by
  induction l with
  | nil => simp [stableInsert]
  | cons d rest ih =>
      simp only [stableInsert]
      split_ifs with hle
      · have hcd : c.message_count ≤ d.message_count := by
          simpa [Discovery.countLe] using hle
        refine List.pairwise_cons.mpr ⟨?_, h⟩
        intro b hb
        rcases List.mem_cons.mp hb with rfl | hbr
        · exact hcd
        · exact le_trans hcd (List.rel_of_pairwise_cons h hbr)
      · have hdc : d.message_count ≤ c.message_count := by
          have hnot : ¬ c.message_count ≤ d.message_count := by
            simpa [Discovery.countLe] using hle
          exact le_of_not_le hnot
        refine List.pairwise_cons.mpr ⟨?_, ih (List.Pairwise.of_cons h)⟩
        intro b hb
        have hbm : b ∈ c :: rest :=
          (stableInsert_perm Discovery.countLe c rest).subset hb
        rcases List.mem_cons.mp hbm with rfl | hbr
        · exact hdc
        · exact List.rel_of_pairwise_cons h hbr

/-- The stable sort by message count is sorted by message count. -/
theorem stableSort_sorted (l : List ConversationFile) :
    (stableSort Discovery.countLe l).Pairwise
      (fun a b => a.message_count ≤ b.message_count) := by
  induction l with
  | nil => simp [stableSort]
  | cons c rest ih =>
      simp only [stableSort]
      exact stableInsert_sorted c _ ih

/-- In a count-descending list, the first hit of `find?` has maximal count
among all hits. -/
theorem find?_max_of_sorted (p : ConversationFile → Bool) :
    ∀ (r : List ConversationFile) (s : ConversationFile),
      r.Pairwise (fun a b => b.message_count ≤ a.message_count) →
      r.find? p = some s →
      ∀ m ∈ r, p m = true → m.message_count ≤ s.message_count := by
  intro r
  induction r with
  | nil => intro s _ hf; cases hf
  | cons a rest ih =>
      intro s hpw hf m hm hpm
      by_cases hpa : p a = true
      · rw [List.find?_cons_of_pos _ hpa] at hf
        have has : a = s := by injection hf
        subst has
        rcases List.mem_cons.mp hm with rfl | hmr
        · exact le_refl _
        · exact List.rel_of_pairwise_cons hpw hmr
      · rw [List.find?_cons_of_neg _ (by simpa using hpa)] at hf
        rcases List.mem_cons.mp hm with rfl | hmr
        · exact absurd hpm hpa
        · exact ih s (List.Pairwise.of_cons hpw) hf m hmr hpm

/-- In a count-ascending list, the defaulted last element has maximal
count. -/
theorem getLastD_max_of_sorted :
    ∀ (l : List ConversationFile) (d : ConversationFile),
      l.Pairwise (fun a b => a.message_count ≤ b.message_count) →
      ∀ m ∈ l, m.message_count ≤ ((l.getLast?).getD d).message_count := by
  intro l
  induction l with
  | nil => intro d _ m hm; cases hm
  | cons a rest ih =>
      intro d hpw m hm
      cases rest with
      | nil =>
          have hma : m = a := by simpa using hm
          subst hma
          simp
      | cons b bs =>
          rw [List.getLast?_cons_cons]
          rcases List.mem_cons.mp hm with rfl | hmr
          · have hsel : (((b :: bs).getLast?).getD d) ∈ b :: bs :=
              getLast?_getD_mem _ _ (by simp)
            exact List.rel_of_pairwise_cons hpw hsel
          · exact ih d (List.Pairwise.of_cons hpw) m hmr

/-- The survivor choice on the count-sorted group is a group member; when
the group has a summary-starting member the survivor starts with a summary
and has maximal message count among the summary-starting members; when no
member starts with a summary the survivor has maximal message count in the
group. -/
theorem pickSelected_spec (seed : ConversationFile)
    (g : List ConversationFile) (hne : g ≠ []) :
    Discovery.pickSelected seed (stableSort Discovery.countLe g) ∈ g ∧
    (∀ m ∈ g, m.starts_with_summary = true →
      (Discovery.pickSelected seed
        (stableSort Discovery.countLe g)).starts_with_summary = true ∧
      m.message_count ≤ (Discovery.pickSelected seed
        (stableSort Discovery.countLe g)).message_count) ∧
    ((∀ m ∈ g, m.starts_with_summary = false) →
      ∀ m ∈ g, m.message_count ≤ (Discovery.pickSelected seed
        (stableSort Discovery.countLe g)).message_count) := by
  have hperm := stableSort_perm Discovery.countLe g
  have hsne : stableSort Discovery.countLe g ≠ [] := by
    intro h0
    have hp2 := hperm
    rw [h0] at hp2
    exact hne hp2.symm.eq_nil
  have hasc := stableSort_sorted g
  have hdesc : (stableSort Discovery.countLe g).reverse.Pairwise
      (fun a b => b.message_count ≤ a.message_count) :=
    List.pairwise_reverse.mpr hasc
  have hmem := pickSelected_mem seed (stableSort Discovery.countLe g) hsne
  refine ⟨hperm.subset hmem, ?_, ?_⟩
  · intro m hm hms
    unfold Discovery.pickSelected
    cases hf : (stableSort Discovery.countLe g).reverse.find?
        (fun x => x.starts_with_summary) with
    | some x =>
        have hxs : x.starts_with_summary = true := List.find?_some hf
        refine ⟨hxs, ?_⟩
        have hmrev : m ∈ (stableSort Discovery.countLe g).reverse :=
          List.mem_reverse.mpr (hperm.mem_iff.mpr hm)
        exact find?_max_of_sorted _ _ x hdesc hf m hmrev hms
    | none =>
        have hnone : ∀ y ∈ (stableSort Discovery.countLe g).reverse,
            ¬ (y.starts_with_summary = true) := by
          intro y hy
          have := List.find?_eq_none.mp hf y hy
          simpa using this
        have hmrev : m ∈ (stableSort Discovery.countLe g).reverse :=
          List.mem_reverse.mpr (hperm.mem_iff.mpr hm)
        exact absurd hms (hnone m hmrev)
  · intro hall m hm
    unfold Discovery.pickSelected
    cases hf : (stableSort Discovery.countLe g).reverse.find?
        (fun x => x.starts_with_summary) with
    | some x =>
        have hx : x ∈ g :=
          hperm.subset (List.mem_reverse.mp (List.mem_of_find?_eq_some hf))
        have hxs : x.starts_with_summary = true := List.find?_some hf
        rw [hall x hx] at hxs
        cases hxs
    | none =>
        have hmsort : m ∈ stableSort Discovery.countLe g := hperm.mem_iff.mpr hm
        exact getLastD_max_of_sorted _ seed hasc m hmsort

end ClaimC2

section ClaimC2main

/-- Loop invariant of the snapshot pass: marked files and surviving files
have disjoint paths, every scanned file ends on one side or the other,
survivors and marked files are never removed, and marked files carry the
snapshot flags.  The hypotheses are the state invariants at loop entry. -/
theorem snapshotLoop_inv (allNC conts : List ConversationFile)
    (hdisjCN : ∀ c ∈ conts, ∀ d ∈ allNC, c.path ≠ d.path)
    (hinj : ∀ a ∈ allNC, ∀ b ∈ allNC, a.path = b.path → a = b) :
    ∀ (pending : List ConversationFile) (processed : List String)
      (result marked : List ConversationFile),
      (∀ c ∈ pending, c ∈ allNC) →
      (∀ f ∈ marked, f.path ∈ processed) →
      (∀ q ∈ processed, q ∈ result.map ConversationFile.path ∨
        q ∈ marked.map ConversationFile.path) →
      (∀ q ∈ result.map ConversationFile.path,
        q ∈ conts.map ConversationFile.path ∨ q ∈ processed) →
      (∀ f ∈ marked, f.path ∉ result.map ConversationFile.path) →
      (∀ q ∈ processed, q ∈ allNC.map ConversationFile.path) →
      (∀ f ∈ marked, f.is_snapshot = true ∧ f.snapshot_type = some "intermediate") →
      ((∀ f ∈ (Discovery.snapshotLoop allNC pending processed result marked).2,
          f.path ∉
            (Discovery.snapshotLoop allNC pending processed result marked).1.map
              ConversationFile.path) ∧
       (∀ c ∈ pending,
          c.path ∈
            (Discovery.snapshotLoop allNC pending processed result marked).1.map
              ConversationFile.path ∨
          c.path ∈
            (Discovery.snapshotLoop allNC pending processed result marked).2.map
              ConversationFile.path) ∧
       (∀ q ∈ result.map ConversationFile.path,
          q ∈ (Discovery.snapshotLoop allNC pending processed result marked).1.map
            ConversationFile.path) ∧
       (∀ q ∈ marked.map ConversationFile.path,
          q ∈ (Discovery.snapshotLoop allNC pending processed result marked).2.map
            ConversationFile.path) ∧
       (∀ f ∈ (Discovery.snapshotLoop allNC pending processed result marked).2,
          f.is_snapshot = true ∧ f.snapshot_type = some "intermediate")) := by
  intro pending
  induction pending with
  | nil =>
      intro processed result marked hpend hmark hcov hsrc hdisj hpnc hflags
      exact ⟨hdisj, fun c hc => absurd hc (List.not_mem_nil c),
        fun q hq => hq, fun q hq => hq, hflags⟩
  | cons conv rest ih =>
      intro processed result marked hpend hmark hcov hsrc hdisj hpnc hflags
      have hconvNC : conv ∈ allNC := hpend conv (List.mem_cons_self _ _)
      have e : Discovery.snapshotLoop allNC (conv :: rest) processed result marked =
          (if conv.path ∈ processed then
            Discovery.snapshotLoop allNC rest processed result marked
          else if conv.message_uuids = ∅ then
            Discovery.snapshotLoop allNC rest (processed ++ [conv.path])
              (result ++ [conv]) marked
          else if (Discovery.collectGroup conv allNC (processed ++ [conv.path])).1 = [] then
            Discovery.snapshotLoop allNC rest
              (Discovery.collectGroup conv allNC (processed ++ [conv.path])).2
              (result ++ [conv]) marked
          else
            Discovery.snapshotLoop allNC rest
              (Discovery.collectGroup conv allNC (processed ++ [conv.path])).2
              (result ++ [Discovery.pickSelected conv
                (stableSort Discovery.countLe
                  (conv :: (Discovery.collectGroup conv allNC (processed ++ [conv.path])).1))])
              (marked ++ ((stableSort Discovery.countLe
                  (conv :: (Discovery.collectGroup conv allNC (processed ++ [conv.path])).1)).filter
                    (fun g => g ≠ Discovery.pickSelected conv
                      (stableSort Discovery.countLe
                        (conv :: (Discovery.collectGroup conv allNC
                          (processed ++ [conv.path])).1)))).map
                  Discovery.markSnapshot)) := rfl
      by_cases hp : conv.path ∈ processed
      · rw [e, if_pos hp]
        obtain ⟨K1, K2, K3, K4, K5⟩ :=
          ih processed result marked
            (fun c hc => hpend c (List.mem_cons_of_mem _ hc))
            hmark hcov hsrc hdisj hpnc hflags
        refine ⟨K1, ?_, K3, K4, K5⟩
        intro c hc
        rcases List.mem_cons.mp hc with rfl | hcr
        · rcases hcov c.path hp with hin | hin
          · exact Or.inl (K3 _ hin)
          · exact Or.inr (K4 _ hin)
        · exact K2 c hcr
      · by_cases hu : conv.message_uuids = ∅
        · rw [e, if_neg hp, if_pos hu]
          have hmark' : ∀ f ∈ marked, f.path ∈ processed ++ [conv.path] :=
            fun f hf => List.mem_append_left _ (hmark f hf)
          have hcov' : ∀ q ∈ processed ++ [conv.path],
              q ∈ (result ++ [conv]).map ConversationFile.path ∨
              q ∈ marked.map ConversationFile.path := by
            intro q hq
            rcases List.mem_append.mp hq with hq | hq
            · rcases hcov q hq with hin | hin
              · exact Or.inl (by rw [List.map_append]; exact List.mem_append_left _ hin)
              · exact Or.inr hin
            · have : q = conv.path := by simpa using hq
              subst this
              exact Or.inl (by rw [List.map_append]; exact List.mem_append_right _ (by simp))
          have hsrc' : ∀ q ∈ (result ++ [conv]).map ConversationFile.path,
              q ∈ conts.map ConversationFile.path ∨ q ∈ processed ++ [conv.path] := by
            intro q hq
            rw [List.map_append] at hq
            rcases List.mem_append.mp hq with hq | hq
            · rcases hsrc q hq with hin | hin
              · exact Or.inl hin
              · exact Or.inr (List.mem_append_left _ hin)
            · have : q = conv.path := by simpa using hq
              subst this
              exact Or.inr (List.mem_append_right _ (by simp))
          have hdisj' : ∀ f ∈ marked,
              f.path ∉ (result ++ [conv]).map ConversationFile.path := by
            intro f hf hcon
            rw [List.map_append] at hcon
            rcases List.mem_append.mp hcon with hin | hin
            · exact hdisj f hf hin
            · have : f.path = conv.path := by simpa using hin
              exact hp (this ▸ hmark f hf)
          have hpnc' : ∀ q ∈ processed ++ [conv.path],
              q ∈ allNC.map ConversationFile.path := by
            intro q hq
            rcases List.mem_append.mp hq with hq | hq
            · exact hpnc q hq
            · have : q = conv.path := by simpa using hq
              subst this
              exact List.mem_map_of_mem _ hconvNC
          obtain ⟨K1, K2, K3, K4, K5⟩ :=
            ih (processed ++ [conv.path]) (result ++ [conv]) marked
              (fun c hc => hpend c (List.mem_cons_of_mem _ hc))
              hmark' hcov' hsrc' hdisj' hpnc' hflags
          refine ⟨K1, ?_, ?_, K4, K5⟩
          · intro c hc
            rcases List.mem_cons.mp hc with rfl | hcr
            · exact Or.inl (K3 _ (by rw [List.map_append]; exact List.mem_append_right _ (by simp)))
            · exact K2 c hcr
          · intro q hq
            exact K3 _ (by rw [List.map_append]; exact List.mem_append_left _ hq)
        · obtain ⟨Δ, hcolraw, hΔ⟩ := cg_go conv allNC [] (processed ++ [conv.path])
          have hcol : Discovery.collectGroup conv allNC (processed ++ [conv.path]) =
              (Δ, (processed ++ [conv.path]) ++ Δ.map ConversationFile.path) := by
            unfold Discovery.collectGroup
            rw [hcolraw]
            simp
          have hgroupNC : ∀ g ∈ conv :: Δ, g ∈ allNC := by
            intro g hg
            rcases List.mem_cons.mp hg with rfl | hgΔ
            · exact hconvNC
            · exact (hΔ g hgΔ).1
          have hgroup_fresh : ∀ g ∈ conv :: Δ, g.path ∉ processed := by
            intro g hg
            rcases List.mem_cons.mp hg with rfl | hgΔ
            · exact hp
            · intro hc
              exact (hΔ g hgΔ).2 (List.mem_append_left _ hc)
          have hgroup_proc : ∀ g ∈ conv :: Δ,
              g.path ∈ (processed ++ [conv.path]) ++ Δ.map ConversationFile.path := by
            intro g hg
            rcases List.mem_cons.mp hg with rfl | hgΔ
            · exact List.mem_append_left _ (List.mem_append_right _ (by simp))
            · exact List.mem_append_right _ (List.mem_map_of_mem _ hgΔ)
          have hgroup_nres : ∀ g ∈ conv :: Δ,
              g.path ∉ result.map ConversationFile.path := by
            intro g hg hcon
            rcases hsrc g.path hcon with hin | hin
            · obtain ⟨c0, hc0, hc0p⟩ := List.mem_map.mp hin
              exact hdisjCN c0 hc0 g (hgroupNC g hg) hc0p
            · exact hgroup_fresh g hg hin
          by_cases hg0 : (Discovery.collectGroup conv allNC (processed ++ [conv.path])).1 = []
          · have hΔnil : Δ = [] := by rw [hcol] at hg0; exact hg0
            rw [e, if_neg hp, if_neg hu, if_pos hg0, hcol, hΔnil]
            simp only [List.map_nil, List.append_nil]
            have hmark' : ∀ f ∈ marked, f.path ∈ processed ++ [conv.path] :=
              fun f hf => List.mem_append_left _ (hmark f hf)
            have hcov' : ∀ q ∈ processed ++ [conv.path],
                q ∈ (result ++ [conv]).map ConversationFile.path ∨
                q ∈ marked.map ConversationFile.path := by
              intro q hq
              rcases List.mem_append.mp hq with hq | hq
              · rcases hcov q hq with hin | hin
                · exact Or.inl (by rw [List.map_append]; exact List.mem_append_left _ hin)
                · exact Or.inr hin
              · have : q = conv.path := by simpa using hq
                subst this
                exact Or.inl (by rw [List.map_append]; exact List.mem_append_right _ (by simp))
            have hsrc' : ∀ q ∈ (result ++ [conv]).map ConversationFile.path,
                q ∈ conts.map ConversationFile.path ∨ q ∈ processed ++ [conv.path] := by
              intro q hq
              rw [List.map_append] at hq
              rcases List.mem_append.mp hq with hq | hq
              · rcases hsrc q hq with hin | hin
                · exact Or.inl hin
                · exact Or.inr (List.mem_append_left _ hin)
              · have : q = conv.path := by simpa using hq
                subst this
                exact Or.inr (List.mem_append_right _ (by simp))
            have hdisj' : ∀ f ∈ marked,
                f.path ∉ (result ++ [conv]).map ConversationFile.path := by
              intro f hf hcon
              rw [List.map_append] at hcon
              rcases List.mem_append.mp hcon with hin | hin
              · exact hdisj f hf hin
              · have : f.path = conv.path := by simpa using hin
                exact hp (this ▸ hmark f hf)
            have hpnc' : ∀ q ∈ processed ++ [conv.path],
                q ∈ allNC.map ConversationFile.path := by
              intro q hq
              rcases List.mem_append.mp hq with hq | hq
              · exact hpnc q hq
              · have : q = conv.path := by simpa using hq
                subst this
                exact List.mem_map_of_mem _ hconvNC
            obtain ⟨K1, K2, K3, K4, K5⟩ :=
              ih (processed ++ [conv.path]) (result ++ [conv]) marked
                (fun c hc => hpend c (List.mem_cons_of_mem _ hc))
                hmark' hcov' hsrc' hdisj' hpnc' hflags
            refine ⟨K1, ?_, ?_, K4, K5⟩
            · intro c hc
              rcases List.mem_cons.mp hc with rfl | hcr
              · exact Or.inl (K3 _ (by rw [List.map_append]; exact List.mem_append_right _ (by simp)))
              · exact K2 c hcr
            · intro q hq
              exact K3 _ (by rw [List.map_append]; exact List.mem_append_left _ hq)
          · rw [e, if_neg hp, if_neg hu, if_neg hg0, hcol]
            have hΔne : Δ ≠ [] := by
              intro h0
              exact hg0 (by rw [hcol, h0])
            have hperm : (stableSort Discovery.countLe (conv :: Δ)).Perm (conv :: Δ) :=
              stableSort_perm _ _
            have hsne : stableSort Discovery.countLe (conv :: Δ) ≠ [] := by
              intro h0
              have := hperm.length_eq
              rw [h0] at this
              simp at this
            have hselmem : Discovery.pickSelected conv
                (stableSort Discovery.countLe (conv :: Δ)) ∈ conv :: Δ :=
              hperm.subset (pickSelected_mem _ _ hsne)
            have hselproc : (Discovery.pickSelected conv
                (stableSort Discovery.countLe (conv :: Δ))).path ∈
                (processed ++ [conv.path]) ++ Δ.map ConversationFile.path :=
              hgroup_proc _ hselmem
            have hselfresh : (Discovery.pickSelected conv
                (stableSort Discovery.countLe (conv :: Δ))).path ∉ processed :=
              hgroup_fresh _ hselmem
            have hmark' : ∀ f ∈ marked ++ ((stableSort Discovery.countLe
                (conv :: Δ)).filter (fun g => g ≠ Discovery.pickSelected conv
                  (stableSort Discovery.countLe (conv :: Δ)))).map Discovery.markSnapshot,
                f.path ∈ (processed ++ [conv.path]) ++ Δ.map ConversationFile.path := by
              intro f hf
              rcases List.mem_append.mp hf with hf | hf
              · exact List.mem_append_left _ (List.mem_append_left _ (hmark f hf))
              · obtain ⟨g, hg, rfl⟩ := List.mem_map.mp hf
                have hgmem : g ∈ conv :: Δ := hperm.subset (List.mem_of_mem_filter hg)
                rw [markSnapshot_path]
                exact hgroup_proc g hgmem
            have hcov' : ∀ q ∈ (processed ++ [conv.path]) ++ Δ.map ConversationFile.path,
                q ∈ (result ++ [Discovery.pickSelected conv
                  (stableSort Discovery.countLe (conv :: Δ))]).map ConversationFile.path ∨
                q ∈ (marked ++ ((stableSort Discovery.countLe
                  (conv :: Δ)).filter (fun g => g ≠ Discovery.pickSelected conv
                    (stableSort Discovery.countLe (conv :: Δ)))).map
                      Discovery.markSnapshot).map ConversationFile.path := by
              intro q hq
              have hgrp : ∀ g ∈ conv :: Δ,
                  g.path ∈ (result ++ [Discovery.pickSelected conv
                    (stableSort Discovery.countLe (conv :: Δ))]).map ConversationFile.path ∨
                  g.path ∈ (marked ++ ((stableSort Discovery.countLe
                    (conv :: Δ)).filter (fun g => g ≠ Discovery.pickSelected conv
                      (stableSort Discovery.countLe (conv :: Δ)))).map
                        Discovery.markSnapshot).map ConversationFile.path := by
                intro g hg
                by_cases hgs : g = Discovery.pickSelected conv
                    (stableSort Discovery.countLe (conv :: Δ))
                · subst hgs
                  exact Or.inl (by rw [List.map_append]; exact List.mem_append_right _ (by simp))
                · have hgsorted : g ∈ stableSort Discovery.countLe (conv :: Δ) :=
                    (hperm.mem_iff).mpr hg
                  have : Discovery.markSnapshot g ∈ ((stableSort Discovery.countLe
                      (conv :: Δ)).filter (fun g => g ≠ Discovery.pickSelected conv
                        (stableSort Discovery.countLe (conv :: Δ)))).map
                          Discovery.markSnapshot :=
                    List.mem_map_of_mem _ (List.mem_filter.mpr ⟨hgsorted, by simp [hgs]⟩)
                  refine Or.inr ?_
                  rw [List.map_append]
                  refine List.mem_append_right _ ?_
                  have := List.mem_map_of_mem ConversationFile.path this
                  rw [markSnapshot_path] at this
                  exact this
              rcases List.mem_append.mp hq with hq | hq
              · rcases List.mem_append.mp hq with hq | hq
                · rcases hcov q hq with hin | hin
                  · exact Or.inl (by rw [List.map_append]; exact List.mem_append_left _ hin)
                  · exact Or.inr (by rw [List.map_append]; exact List.mem_append_left _ hin)
                · have : q = conv.path := by simpa using hq
                  subst this
                  exact hgrp conv (List.mem_cons_self _ _)
              · obtain ⟨g, hgΔ, rfl⟩ := List.mem_map.mp hq
                exact hgrp g (List.mem_cons_of_mem _ hgΔ)
            have hsrc' : ∀ q ∈ (result ++ [Discovery.pickSelected conv
                (stableSort Discovery.countLe (conv :: Δ))]).map ConversationFile.path,
                q ∈ conts.map ConversationFile.path ∨
                q ∈ (processed ++ [conv.path]) ++ Δ.map ConversationFile.path := by
              intro q hq
              rw [List.map_append] at hq
              rcases List.mem_append.mp hq with hq | hq
              · rcases hsrc q hq with hin | hin
                · exact Or.inl hin
                · exact Or.inr (List.mem_append_left _ (List.mem_append_left _ hin))
              · have : q = (Discovery.pickSelected conv
                    (stableSort Discovery.countLe (conv :: Δ))).path := by simpa using hq
                subst this
                exact Or.inr hselproc
            have hdisj' : ∀ f ∈ marked ++ ((stableSort Discovery.countLe
                (conv :: Δ)).filter (fun g => g ≠ Discovery.pickSelected conv
                  (stableSort Discovery.countLe (conv :: Δ)))).map Discovery.markSnapshot,
                f.path ∉ (result ++ [Discovery.pickSelected conv
                  (stableSort Discovery.countLe (conv :: Δ))]).map ConversationFile.path := by
              intro f hf hcon
              rw [List.map_append] at hcon
              rcases List.mem_append.mp hf with hfo | hfn
              · rcases List.mem_append.mp hcon with hin | hin
                · exact hdisj f hfo hin
                · have : f.path = (Discovery.pickSelected conv
                      (stableSort Discovery.countLe (conv :: Δ))).path := by simpa using hin
                  exact hselfresh (this ▸ hmark f hfo)
              · obtain ⟨g, hg, rfl⟩ := List.mem_map.mp hfn
                have hgmem : g ∈ conv :: Δ := hperm.subset (List.mem_of_mem_filter hg)
                have hgne : g ≠ Discovery.pickSelected conv
                    (stableSort Discovery.countLe (conv :: Δ)) := by
                  have := (List.mem_filter.mp hg).2
                  simpa using this
                rw [markSnapshot_path] at hcon
                rcases List.mem_append.mp hcon with hin | hin
                · exact hgroup_nres g hgmem hin
                · have hpeq : g.path = (Discovery.pickSelected conv
                      (stableSort Discovery.countLe (conv :: Δ))).path := by simpa using hin
                  exact hgne (hinj g (hgroupNC g hgmem) _ (hgroupNC _ hselmem) hpeq)
            have hpnc' : ∀ q ∈ (processed ++ [conv.path]) ++ Δ.map ConversationFile.path,
                q ∈ allNC.map ConversationFile.path := by
              intro q hq
              rcases List.mem_append.mp hq with hq | hq
              · rcases List.mem_append.mp hq with hq | hq
                · exact hpnc q hq
                · have : q = conv.path := by simpa using hq
                  subst this
                  exact List.mem_map_of_mem _ hconvNC
              · obtain ⟨g, hgΔ, rfl⟩ := List.mem_map.mp hq
                exact List.mem_map_of_mem _ ((hΔ g hgΔ).1)
            have hflags' : ∀ f ∈ marked ++ ((stableSort Discovery.countLe
                (conv :: Δ)).filter (fun g => g ≠ Discovery.pickSelected conv
                  (stableSort Discovery.countLe (conv :: Δ)))).map Discovery.markSnapshot,
                f.is_snapshot = true ∧ f.snapshot_type = some "intermediate" := by
              intro f hf
              rcases List.mem_append.mp hf with hf | hf
              · exact hflags f hf
              · obtain ⟨g, _, rfl⟩ := List.mem_map.mp hf
                exact markSnapshot_flags g
            obtain ⟨K1, K2, K3, K4, K5⟩ :=
              ih ((processed ++ [conv.path]) ++ Δ.map ConversationFile.path)
                (result ++ [Discovery.pickSelected conv
                  (stableSort Discovery.countLe (conv :: Δ))])
                (marked ++ ((stableSort Discovery.countLe
                  (conv :: Δ)).filter (fun g => g ≠ Discovery.pickSelected conv
                    (stableSort Discovery.countLe (conv :: Δ)))).map Discovery.markSnapshot)
                (fun c hc => hpend c (List.mem_cons_of_mem _ hc))
                hmark' hcov' hsrc' hdisj' hpnc' hflags'
            refine ⟨K1, ?_, ?_, ?_, K5⟩
            · intro c hc
              rcases List.mem_cons.mp hc with rfl | hcr
              · rcases hcov' c.path
                    (List.mem_append_left _ (List.mem_append_right _ (by simp))) with hin | hin
                · exact Or.inl (K3 _ hin)
                · exact Or.inr (K4 _ hin)
              · exact K2 c hcr
            · intro q hq
              exact K3 _ (by rw [List.map_append]; exact List.mem_append_left _ hq)
            · intro q hq
              exact K4 _ (by rw [List.map_append]; exact List.mem_append_left _ hq)

end ClaimC2main

section ClaimC2final

/-- C2 (amended): the overlap link is symmetric; under distinct file paths
a seed's group collects exactly the yet-unprocessed files directly linked
to it (not a transitive closure: see the counterexample); within each group
the survivor picked from the count-sorted group is a member that starts
with a summary and has maximal message count among summary-starting members
when any exists, else has maximal message count overall; the pass
partitions the files — every marked file's path leaves the kept list,
every input file ends kept or marked — and every marked file carries
`is_snapshot` with snapshot type `"intermediate"`. -/
theorem C2_snapshot_partition (convs : List ConversationFile)
    (hnd : (convs.map ConversationFile.path).Nodup) :
    (∀ x y : ConversationFile,
      Discovery.overlapLinked x y = Discovery.overlapLinked y x) ∧
    (∀ (seed : ConversationFile) (pr : List String),
      (Discovery.collectGroup seed
        (convs.filter (fun c => decide (c ∉
          convs.filter (fun c => Discovery.is_compaction_continuation c)))) pr).1 =
      (convs.filter (fun c => decide (c ∉
        convs.filter (fun c => Discovery.is_compaction_continuation c)))).filter
        (fun o => !(decide (o.path ∈ pr)) && Discovery.overlapLinked seed o)) ∧
    (∀ (seed : ConversationFile) (g : List ConversationFile), g ≠ [] →
      Discovery.pickSelected seed (stableSort Discovery.countLe g) ∈ g ∧
      (∀ m ∈ g, m.starts_with_summary = true →
        (Discovery.pickSelected seed
          (stableSort Discovery.countLe g)).starts_with_summary = true ∧
        m.message_count ≤ (Discovery.pickSelected seed
          (stableSort Discovery.countLe g)).message_count) ∧
      ((∀ m ∈ g, m.starts_with_summary = false) →
        ∀ m ∈ g, m.message_count ≤ (Discovery.pickSelected seed
          (stableSort Discovery.countLe g)).message_count)) ∧
    (∀ f ∈ (Discovery.snapshotCore convs).2,
      f.path ∉ (Discovery.snapshotCore convs).1.map ConversationFile.path) ∧
    (∀ c ∈ convs,
      c.path ∈ (Discovery.snapshotCore convs).1.map ConversationFile.path ∨
      c.path ∈ (Discovery.snapshotCore convs).2.map ConversationFile.path) ∧
    (∀ f ∈ (Discovery.snapshotCore convs).2,
      f.is_snapshot = true ∧ f.snapshot_type = some "intermediate") := by
  have hinj_convs : ∀ a ∈ convs, ∀ b ∈ convs, a.path = b.path → a = b :=
    fun a ha b hb => List.inj_on_of_nodup_map hnd ha hb
  have hndNC : ((convs.filter (fun c => decide (c ∉
      convs.filter (fun c => Discovery.is_compaction_continuation c)))).map
        ConversationFile.path).Nodup := by
    have hsub : (convs.filter (fun c => decide (c ∉
        convs.filter (fun c => Discovery.is_compaction_continuation c)))).Sublist
          convs := List.filter_sublist _
    exact List.Nodup.sublist (hsub.map ConversationFile.path) hnd
  have e : Discovery.snapshotCore convs =
      Discovery.snapshotLoop
        (convs.filter (fun c => decide (c ∉
          convs.filter (fun c => Discovery.is_compaction_continuation c))))
        (convs.filter (fun c => decide (c ∉
          convs.filter (fun c => Discovery.is_compaction_continuation c))))
        []
        (convs.filter (fun c => Discovery.is_compaction_continuation c))
        [] := rfl
  have hconts_sub : ∀ c ∈ convs.filter (fun c => Discovery.is_compaction_continuation c),
      c ∈ convs := fun c hc => (List.mem_filter.mp hc).1
  have hnc_sub : ∀ c ∈ convs.filter (fun c => decide (c ∉
      convs.filter (fun c => Discovery.is_compaction_continuation c))),
      c ∈ convs := fun c hc => (List.mem_filter.mp hc).1
  have hnc_not : ∀ c ∈ convs.filter (fun c => decide (c ∉
      convs.filter (fun c => Discovery.is_compaction_continuation c))),
      c ∉ convs.filter (fun c => Discovery.is_compaction_continuation c) :=
    fun c hc => of_decide_eq_true (List.mem_filter.mp hc).2
  have hdisjCN : ∀ c ∈ convs.filter (fun c => Discovery.is_compaction_continuation c),
      ∀ d ∈ convs.filter (fun c => decide (c ∉
        convs.filter (fun c => Discovery.is_compaction_continuation c))),
      c.path ≠ d.path := by
    intro c hc d hd heq
    have : c = d := hinj_convs c (hconts_sub c hc) d (hnc_sub d hd) heq
    exact hnc_not d hd (this ▸ hc)
  have hinjNC : ∀ a ∈ convs.filter (fun c => decide (c ∉
      convs.filter (fun c => Discovery.is_compaction_continuation c))),
      ∀ b ∈ convs.filter (fun c => decide (c ∉
        convs.filter (fun c => Discovery.is_compaction_continuation c))),
      a.path = b.path → a = b :=
    fun a ha b hb => hinj_convs a (hnc_sub a ha) b (hnc_sub b hb)
  obtain ⟨K1, K2, K3, K4, K5⟩ :=
    snapshotLoop_inv _ _ hdisjCN hinjNC
      (convs.filter (fun c => decide (c ∉
        convs.filter (fun c => Discovery.is_compaction_continuation c))))
      []
      (convs.filter (fun c => Discovery.is_compaction_continuation c))
      []
      (fun c hc => hc)
      (fun f hf => absurd hf (List.not_mem_nil f))
      (fun q hq => absurd hq (List.not_mem_nil q))
      (fun q hq => Or.inl hq)
      (fun f hf => absurd hf (List.not_mem_nil f))
      (fun q hq => absurd hq (List.not_mem_nil q))
      (fun f hf => absurd hf (List.not_mem_nil f))
  rw [e]
  refine ⟨fun x y => overlapLinked_symm x y,
    fun seed pr => collectGroup_exact seed _ pr hndNC,
    fun seed g hg => pickSelected_spec seed g hg,
    K1, ?_, K5⟩
  intro c hc
  by_cases hcc : c ∈ convs.filter (fun c => Discovery.is_compaction_continuation c)
  · exact Or.inl (K3 _ (List.mem_map_of_mem _ hcc))
  · exact K2 c (List.mem_filter.mpr ⟨hc, decide_eq_true hcc⟩)

/-- File A of the C2 counterexample: sampled uuid set overlapping B. -/
def c2A : ConversationFile :=
  { path := "pa", session_id := "a", message_count := 2
  , message_uuids := {"u1", "u2"} }

/-- File B of the C2 counterexample: overlaps both A and C. -/
def c2B : ConversationFile :=
  { path := "pb", session_id := "b", message_count := 4
  , message_uuids := {"u1", "u2", "v1", "v2"} }

/-- File C of the C2 counterexample: overlaps B but not A. -/
def c2C : ConversationFile :=
  { path := "pc", session_id := "c", message_count := 2
  , message_uuids := {"v1", "v2"} }

/-- Claim C2 as stated, instantiated: linked files fall in one snapshot
group, a group with more than one member keeps exactly one non-snapshot
survivor, so two distinct linked files never both survive the pass. -/
def specSnapshotOneSurvivor (convs : List ConversationFile) : Prop :=
  ∀ x ∈ convs, ∀ y ∈ convs, x ≠ y → Discovery.overlapLinked x y = true →
    ¬(x ∈ Discovery.detect_and_filter_snapshots convs ∧
      y ∈ Discovery.detect_and_filter_snapshots convs)

/-- C2 counterexample: with A–B linked and B–C linked but A–C not, the
greedy pass groups only {A, B} (marking A), and C survives alongside B even
though B and C are linked — the grouping is not the connected-component
partition the claim describes. -/
theorem C2_counterexample : ¬ specSnapshotOneSurvivor [c2A, c2B, c2C] := by
  intro h
  exact h c2B (by simp) c2C (by simp) (by decide) (by decide)
    ⟨by decide, by decide⟩

/-- Witness for C2 at the concrete three-file input. -/
theorem C2_snapshot_partition_witness :
    ([c2A, c2B, c2C].map ConversationFile.path).Nodup ∧
    ((∀ x y : ConversationFile,
      Discovery.overlapLinked x y = Discovery.overlapLinked y x) ∧
    (∀ (seed : ConversationFile) (pr : List String),
      (Discovery.collectGroup seed
        ([c2A, c2B, c2C].filter (fun c => decide (c ∉
          [c2A, c2B, c2C].filter (fun c =>
            Discovery.is_compaction_continuation c)))) pr).1 =
      ([c2A, c2B, c2C].filter (fun c => decide (c ∉
        [c2A, c2B, c2C].filter (fun c =>
          Discovery.is_compaction_continuation c)))).filter
        (fun o => !(decide (o.path ∈ pr)) && Discovery.overlapLinked seed o)) ∧
    (∀ (seed : ConversationFile) (g : List ConversationFile), g ≠ [] →
      Discovery.pickSelected seed (stableSort Discovery.countLe g) ∈ g ∧
      (∀ m ∈ g, m.starts_with_summary = true →
        (Discovery.pickSelected seed
          (stableSort Discovery.countLe g)).starts_with_summary = true ∧
        m.message_count ≤ (Discovery.pickSelected seed
          (stableSort Discovery.countLe g)).message_count) ∧
      ((∀ m ∈ g, m.starts_with_summary = false) →
        ∀ m ∈ g, m.message_count ≤ (Discovery.pickSelected seed
          (stableSort Discovery.countLe g)).message_count)) ∧
    (∀ f ∈ (Discovery.snapshotCore [c2A, c2B, c2C]).2,
      f.path ∉ (Discovery.snapshotCore [c2A, c2B, c2C]).1.map ConversationFile.path) ∧
    (∀ c ∈ [c2A, c2B, c2C],
      c.path ∈ (Discovery.snapshotCore [c2A, c2B, c2C]).1.map ConversationFile.path ∨
      c.path ∈ (Discovery.snapshotCore [c2A, c2B, c2C]).2.map ConversationFile.path) ∧
    (∀ f ∈ (Discovery.snapshotCore [c2A, c2B, c2C]).2,
      f.is_snapshot = true ∧ f.snapshot_type = some "intermediate")) :=
  ⟨by decide, C2_snapshot_partition [c2A, c2B, c2C] (by decide)⟩

end ClaimC2final
